import Mathlib

/-!
Verification development for the CanvasQuartoSync core: a shallow embedding of
the quiz-markup parser (src/handlers/qmd_quiz_parser.py), the formula-solution
generator (src/handlers/new_quiz_handler.py) and the sync / asset engine
(src/handlers/content_utils.py, quiz_handler.py, page_handler.py), together
with theorems about them.

Conventions of the embedding:
* Python strings are Lean `String`s; Python floats that carry modification
  times or sampled variable values are modelled as exact rationals `ℚ`
  (every concrete value appearing in the claims is exactly representable
  as a binary float, so no rounding drift is lost).
* Python dicts are association lists with replace-or-append insertion
  (`dinsert`) and first-match lookup (`dget`); since `dinsert` replaces in
  place, keys stay unique and first-match lookup coincides with dict lookup.
* The regular expressions of the source are hand-translated into character
  and line scanners.  The translations follow the regex semantics (lazy
  groups stop at the first viable position, greedy classes take maximal
  runs, anchors with MULTILINE attach to line boundaries); corner cases in
  which a whitespace class inside a pattern could swallow a line break are
  noted at the definition they concern.
-/

/-! ## Dictionary (Python dict) helpers -/

/-- Lookup in an association list, first match. -/
def dget {α : Type} (k : String) (m : List (String × α)) : Option α :=
  (m.find? (fun p => p.1 = k)).map (fun p => p.2)

/-- Python dict assignment: replace the value in place if the key is
present (keys are unique, so replacing the first occurrence is dict
semantics), otherwise append the new binding. -/
def dinsert {α : Type} (k : String) (v : α) : List (String × α) → List (String × α)
  | [] => [(k, v)]
  | p :: m => if p.1 = k then (k, v) :: m else p :: dinsert k v m


/-! ## Reducible string primitives

Core `String` operations such as `trim`, `splitOn`, `startsWith` and
`toLower` are implemented on byte positions and do not reduce inside the
kernel; the embedding therefore uses character-list equivalents (Python
`strip` removes a slightly larger whitespace class than ASCII; the
difference never occurs in this format). -/

/-- Python `str.strip()`. -/
def pyStrip (s : String) : String :=
  String.mk (((s.toList.dropWhile Char.isWhitespace).reverse.dropWhile
    Char.isWhitespace).reverse)

/-- Python `str.lstrip()`. -/
def pyLStrip (s : String) : String :=
  String.mk (s.toList.dropWhile Char.isWhitespace)

/-- Prefix test (`str.startswith`). -/
def strStarts (s pre : String) : Bool :=
  pre.toList.isPrefixOf s.toList

/-- Split a character list at a separator character. -/
def splitOnChar (c : Char) : List Char → List (List Char)
  | [] => [[]]
  | x :: xs =>
    let r := splitOnChar c xs
    if x = c then [] :: r
    else
      match r with
      | [] => [[x]]
      | h :: t => (x :: h) :: t

/-- Split a string into its lines (Python `str.split(newline)` and the
`re.MULTILINE` line structure). -/
def splitLines (s : String) : List String :=
  (splitOnChar '\x0a' s.toList).map String.mk

/-- Lower-case a string (`str.lower()`; folder names in this tool are
ASCII). -/
def strLower (s : String) : String :=
  String.mk (s.toList.map Char.toLower)

/-- Number of leading whitespace characters
(`len(line) - len(line.lstrip())`). -/
def leadingWsCount (s : String) : Nat :=
  (s.toList.takeWhile Char.isWhitespace).length

/-- Reducible decimal rendering of an integer. -/
def intStr (z : ℤ) : String :=
  if z < 0 then "-" ++ toString z.natAbs else toString z.natAbs

/-- Reducible rendering of a rational (`str` of the Python float value,
abstracted to an injective textual form). -/
def ratStr (q : ℚ) : String :=
  if q.den = 1 then intStr q.num else intStr q.num ++ "/" ++ toString q.den

/-! ## Attribute values

`_parse_attributes` coerces each textual value with `int(value)` then
`float(value)`, falling back to the raw string. -/

/-- Result of the numeric coercion attempted by `_parse_attributes`. -/
inductive AttrVal where
  | int (z : ℤ)
  | float (q : ℚ)
  | str (s : String)
deriving DecidableEq, Repr

/-- Decimal digit run to a natural number. -/
def digitsToNat (l : List Char) : ℕ :=
  l.foldl (fun acc c => acc * 10 + (c.toNat - 48)) 0

/-- Python `int(s)`: optional sign followed by at least one digit
(surrounding whitespace stripped). -/
def pyInt? (s : String) : Option ℤ :=
  let t := pyStrip s
  let core := if strStarts t "-" ∨ strStarts t "+" then t.drop 1 else t
  if core.length > 0 ∧ core.toList.all Char.isDigit then
    let n := digitsToNat core.toList
    some (if strStarts t "-" then -(n : ℤ) else (n : ℤ))
  else none

/-- Python `float(s)` restricted to plain decimal literals: optional sign,
digits, optional decimal point (exponent forms do not occur in quiz
attributes). -/
def pyFloat? (s : String) : Option ℚ :=
  let t := pyStrip s
  let core := if strStarts t "-" ∨ strStarts t "+" then t.drop 1 else t
  match splitOnChar '.' core.toList with
  | [a] =>
    if a.length > 0 ∧ a.all Char.isDigit then
      let n := digitsToNat a
      some (if strStarts t "-" then -(n : ℚ) else (n : ℚ))
    else none
  | [a, b] =>
    if (a.length > 0 ∨ b.length > 0) ∧ a.all Char.isDigit ∧ b.all Char.isDigit then
      let n := digitsToNat a
      let f := digitsToNat b
      let q : ℚ := (n : ℚ) + (f : ℚ) / ((10 : ℚ) ^ b.length)
      some (if strStarts t "-" then -q else q)
    else none
  | _ => none

/-- Numeric coercion of `_parse_attributes`: try `int`, then `float`,
else keep the string. -/
def coerceAttr (s : String) : AttrVal :=
  match pyInt? s with
  | some z => .int z
  | none =>
    match pyFloat? s with
    | some q => .float q
    | none => .str s

/-- Word characters of the regex class `\w`. -/
def isWordChar (c : Char) : Bool := c.isAlphanum || c = '_'

/-- Value alternative `(?:"([^"]*?)"|(\S+))` of the attribute pattern,
anchored at the head of `r3`; returns the coerced value and the number of
characters consumed.  The quoted alternative takes the lazy span up to the
first closing quote; if no closing quote exists, the `\S+` alternative
(which then starts at the quote character) applies. -/
def matchAttrValue (r3 : List Char) : Option (AttrVal × Nat) :=
  match r3 with
  | '\x22' :: r4 =>
    if r4.contains '\x22' then
      let v := r4.takeWhile (fun c => c ≠ '\x22')
      some (coerceAttr (String.mk v), 1 + v.length + 1)
    else
      let v := r3.takeWhile (fun c => ¬ c.isWhitespace)
      if v.length = 0 then none else some (coerceAttr (String.mk v), v.length)
  | _ =>
    let v := r3.takeWhile (fun c => ¬ c.isWhitespace)
    if v.length = 0 then none else some (coerceAttr (String.mk v), v.length)

/-- One attempt of the pattern `(\w+)\s*=\s*(?:"([^"]*?)"|(\S+))` anchored at
the head of the character list; returns the key, the coerced value, and the
number of characters the match consumed. -/
def tryMatchAttr (l : List Char) : Option (String × AttrVal × Nat) :=
  let word := l.takeWhile isWordChar
  if word.length = 0 then none
  else
    let i1 := word.length
    let i2 := i1 + ((l.drop i1).takeWhile Char.isWhitespace).length
    match l.drop i2 with
    | '=' :: r2 =>
      let i3 := i2 + 1 + (r2.takeWhile Char.isWhitespace).length
      match matchAttrValue (l.drop i3) with
      | some (v, n) => some (String.mk word, v, i3 + n)
      | none => none
    | _ => none

/-- The `finditer` scan of `_parse_attributes`: at each position try the
pattern; on success record the binding (dict assignment) and continue after
the match, otherwise advance one character.  The recursion is paced by a
fuel counter so that the definition reduces by iota; every step consumes at
least one character (`tryMatchAttr_pos`), so fuel `l.length + 1` never runs
out. -/
def scanAttrs (fuel : ℕ) (l : List Char) (acc : List (String × AttrVal)) :
    List (String × AttrVal) :=
  match fuel with
  | 0 => acc
  | fuel + 1 =>
    match l with
    | [] => acc
    | c :: cs =>
      match tryMatchAttr (c :: cs) with
      | some (k, v, n) => scanAttrs fuel ((c :: cs).drop n) (dinsert k v acc)
      | none => scanAttrs fuel cs acc

/-- Embedding of `_parse_attributes`. -/
def parseAttributes (attrsStr : String) : List (String × AttrVal) :=
  scanAttrs (attrsStr.toList.length + 1) attrsStr.toList []

/-! ## Question block extraction (`_extract_question_blocks`)

The scanner works on stripped lines.  A line whose stripped form starts with
at least four colons is a fence; `rest` is the stripped text after the
colons.  A fence with empty `rest` closes one nesting level (the line is not
copied into the block), a fence whose `rest` starts with an opening brace or
a hash opens one level (the line is copied), any other line is copied.  The
block ends when the depth returns to zero; the closing line is consumed. -/

/-- Number of leading colon characters of a string. -/
def leadingColons (s : String) : Nat :=
  (s.toList.takeWhile (fun c => c = ':')).length

/-- Match of `^::::+\s*\{\.question(.*?)\}\s*$` against a stripped line:
four or more leading colons, optional whitespace, the literal
`\x7b.question`, then the lazy attribute capture up to the first closing
brace that is followed only by whitespace.  Returns the stripped attribute
text (the source applies `.strip()` to the captured group). -/
def lazyToCloseBrace : List Char → Option (List Char)
  | [] => none
  | c :: cs =>
    if c = '\x7d' ∧ cs.all Char.isWhitespace then some []
    else (lazyToCloseBrace cs).map (fun a => c :: a)

def matchOpenQuestion (line : String) : Option String :=
  let s := pyStrip line
  let n := leadingColons s
  if n < 4 then none
  else
    let afterWs := pyLStrip (s.drop n)
    if strStarts afterWs "\x7b.question" then
      match lazyToCloseBrace (afterWs.drop 10).toList with
      | some attrs => some (pyStrip (String.mk attrs))
      | none => none
    else none

/-- Inner loop of `_extract_question_blocks`: scans lines at a given nesting
depth; returns the collected block lines and the lines remaining after the
closing fence.  Mirrors the source exactly: a four-or-more-colon fence with
empty rest decrements the depth and is dropped from the block content, a
fence whose rest starts with a brace or hash increments the depth and is
kept, everything else is kept. -/
def qbScan : List String → Nat → List String × List String
  | [], _ => ([], [])
  | l :: rest, depth =>
    let s := pyStrip l
    let n := leadingColons s
    if 4 ≤ n then
      let r := pyStrip (s.drop n)
      if r = "" then
        if depth = 1 then ([], rest)
        else
          let (bs, rem) := qbScan rest (depth - 1)
          (bs, rem)
      else if strStarts r "\x7b" ∨ strStarts r "#" then
        let (bs, rem) := qbScan rest (depth + 1)
        (l :: bs, rem)
      else
        let (bs, rem) := qbScan rest depth
        (l :: bs, rem)
    else
      let (bs, rem) := qbScan rest depth
      (l :: bs, rem)

/-- Remove common leading whitespace from all non-empty lines
(`_strip_indent`); whitespace-only lines become empty lines. -/
def stripIndent (text : String) : String :=
  let lines := splitLines text
  let indents := (lines.filter (fun l => pyStrip l ≠ "")).map leadingWsCount
  match indents.min? with
  | none => text
  | some m =>
    if m = 0 then text
    else String.intercalate "\n"
      (lines.map (fun l => if pyStrip l ≠ "" then l.drop m else ""))

/-- Outer loop of `_extract_question_blocks` over the line list, paced by a
fuel counter (each step consumes at least one line, `qbScan_rem_le`, so fuel
`ls.length + 1` never runs out). -/
def qbOuter (fuel : ℕ) (ls : List String) : List (String × String) :=
  match fuel with
  | 0 => []
  | fuel + 1 =>
    match ls with
    | [] => []
    | l :: rest =>
      match matchOpenQuestion l with
      | some attrs =>
        (attrs, stripIndent (String.intercalate "\n" (qbScan rest 1).1)) ::
          qbOuter fuel (qbScan rest 1).2
      | none => qbOuter fuel rest

/-- Embedding of `_extract_question_blocks`. -/
def extractQuestionBlocks (body : String) : List (String × String) :=
  qbOuter ((splitLines body).length + 1) (splitLines body)

/-! ## Question block parsing (`_parse_question_block` and helpers) -/

/-- Answer record produced by the parser.  Checklist answers carry
`answer_text`, rich div answers carry `answer_html`; `answer_comments` is
present only when a (truthy) comment was found. -/
structure Answer where
  answer_text : Option String := none
  answer_html : Option String := none
  answer_weight : Nat := 0
  answer_comments : Option AttrVal := none
deriving DecidableEq, Repr

/-- Question record produced by the parser.  Source: the dict built by
`_parse_question_block`; attribute-derived fields keep the coerced
`AttrVal` shape of the Python values. -/
structure Question where
  question_name : AttrVal
  question_type : AttrVal
  points_possible : AttrVal
  question_text : String := ""
  answers : List Answer := []
  correct_comments : Option String := none
  incorrect_comments : Option String := none
deriving DecidableEq, Repr

/-- Detection `re.search(r'^:::+\s*\{\.answer', content, re.MULTILINE)`:
some line starts (at column zero) with three or more colons, optional
whitespace and the literal `\x7b.answer`.  (A whitespace run inside the
pattern crossing a line break is not modelled; fences in this format are
single lines.) -/
def hasDivAnswers (content : String) : Bool :=
  (splitLines content).any (fun line =>
    let n := leadingColons line
    3 ≤ n ∧ strStarts (pyLStrip (line.drop n)) "\x7b.answer")

/-- Match of a checklist item head `^(\s*)-\s*\[([ xX])\]\s*` against a
line; returns whether the box is checked and the text after the marker
(with the following whitespace consumed). -/
def checkItemSplit (line : String) : Option (Bool × String) :=
  let l := line.toList.dropWhile Char.isWhitespace
  match l with
  | '-' :: r =>
    match r.dropWhile Char.isWhitespace with
    | '[' :: m :: ']' :: rest =>
      if m = 'x' ∨ m = 'X' then
        some (true, String.mk (rest.dropWhile Char.isWhitespace))
      else if m = ' ' then
        some (false, String.mk (rest.dropWhile Char.isWhitespace))
      else none
    | _ => none
  | _ => none

/-- A line at which the lookahead `\n\s*:::` of the checklist answer
pattern fires: optional leading whitespace then three colons. -/
def isFenceCutLine (line : String) : Bool :=
  strStarts (pyLStrip line) ":::"

/-- Opening line of a named (non-classed) div `^\s*:::+\s+name\s*$`. -/
def isNamedOpener (name : String) (line : String) : Bool :=
  let s := pyStrip line
  let n := leadingColons s
  3 ≤ n ∧ (s.drop n) ≠ pyLStrip (s.drop n) ∧ pyStrip (s.drop n) = name

/-- Bare closing fence line `^\s*:::+\s*$` (or the stripped form
`^(:::+)\s*$` used by `_extract_named_divs`). -/
def isBareFence (line : String) : Bool :=
  let s := pyStrip line
  s ≠ "" ∧ s.toList.all (fun c => c = ':') ∧ 3 ≤ leadingColons s

/-- Removal of one kind of named comment div
(`re.sub(r'^\s*:::+\s+name\s*\n.*?\n\s*:::+\s*$', '', text, MULTILINE|DOTALL)`,
working on the line list): an opener line followed (not immediately) by the
first bare closing fence line is replaced by a single empty line, matching
what deleting the matched character span leaves behind; an opener with no
later closer, or with the closer on the very next line (the pattern needs a
line in between), is left in place. -/
def removeNamedDivBlocks (name : String) (fuel : ℕ) (ls : List String) : List String :=
  match fuel with
  | 0 => ls
  | fuel + 1 =>
    match ls with
    | [] => []
    | l :: rest =>
      if isNamedOpener name l then
        match rest with
        | [] => [l]
        | r0 :: rs =>
          match (rs.findIdx? isBareFence : Option Nat) with
          | some j => "" :: removeNamedDivBlocks name fuel (rs.drop (j + 1))
          | none => l :: removeNamedDivBlocks name fuel (r0 :: rs)
      else l :: removeNamedDivBlocks name fuel rest

/-- Embedding of `_remove_comment_divs`.  Fuel `length + 1` suffices: each
step consumes at least one line. -/
def removeCommentDivs (text : String) : String :=
  let ls := splitLines text
  let ls2 := removeNamedDivBlocks "correct-comment" (ls.length + 1) ls
  String.intercalate "\n" (removeNamedDivBlocks "incorrect-comment" (ls2.length + 1) ls2)

/-- Embedding of `_clean_question_text`: drop leading and trailing blank
lines. -/
def cleanQuestionText (text : String) : String :=
  let lines := (splitLines text).dropWhile (fun l => pyStrip l = "")
  String.intercalate "\n" ((lines.reverse.dropWhile (fun l => pyStrip l = "")).reverse)

/-- Sub-item comment scan of `_parse_checklist_answers`: the last line of an
answer body whose stripped form matches `^-\s+(.*)` provides the comment. -/
def subItemComment (line : String) : Option String :=
  let s := pyStrip line
  match s.toList with
  | '-' :: c :: rest =>
    if c.isWhitespace then some (pyStrip (String.mk ((c :: rest).dropWhile Char.isWhitespace)))
    else none
  | _ => none

/-- Segments of the checklist answer section: each segment starts at a
checklist item line and extends to just before the next item line, a fence
line, or the end (the lookahead of the `answer_pattern`). -/
def checklistSegments : List String → Option (Bool × String × List String) →
    List (Bool × String × List String)
  | [], cur => match cur with
    | some (c, h, body) => [(c, h, body.reverse)]
    | none => []
  | l :: rest, cur =>
    match checkItemSplit l with
    | some (chk, after) =>
      let closed := match cur with
        | some (c, h, body) => [(c, h, body.reverse)]
        | none => []
      closed ++ checklistSegments rest (some (chk, after, []))
    | none =>
      if isFenceCutLine l then
        let closed := match cur with
          | some (c, h, body) => [(c, h, body.reverse)]
          | none => []
        closed ++ checklistSegments rest none
      else
        match cur with
        | some (c, h, body) => checklistSegments rest (some (c, h, l :: body))
        | none => checklistSegments rest none

/-- One parsed checklist answer from a segment (checked flag, text after the
marker on the item line, following body lines). -/
def checklistAnswerOfSegment (seg : Bool × String × List String) : Answer :=
  let content := pyStrip (String.intercalate "\n" (seg.2.1 :: seg.2.2))
  let ls := splitLines content
  let text := pyStrip (ls.headD "")
  let comment := ls.tail.foldl (fun acc l =>
    match subItemComment l with
    | some c => some c
    | none => acc) (none : Option String)
  { answer_text := some text
    answer_weight := if seg.1 then 100 else 0
    answer_comments := match comment with
      | some c => if c ≠ "" then some (.str c) else none
      | none => none }

/-- Embedding of `_parse_checklist_answers`: split the block at the first
checklist item line, clean the question text, and parse the item segments. -/
def parseChecklistAnswers (content : String) (q : Question) : Question :=
  let lines := splitLines content
  match lines.findIdx? (fun l => (checkItemSplit l).isSome) with
  | none =>
    { q with question_text := cleanQuestionText (pyStrip content), answers := [] }
  | some i =>
    let questionText := pyStrip (String.intercalate "\n" (lines.take i))
    let answersSection := String.intercalate "\n" (lines.drop i)
    let answersClean := removeCommentDivs answersSection
    let segs := checklistSegments (splitLines answersClean) none
    { q with
      question_text := cleanQuestionText (removeCommentDivs questionText)
      answers := segs.map checklistAnswerOfSegment }

/-! ## Rich div answers (`_parse_div_answers`, `_extract_inner_divs`) -/

/-- Match of `^:::+\s*\{\.CLASS(.*?)\}\s*$` against a stripped line,
returning the stripped attribute capture.  `divClassTag` is the literal
`\x7b.CLASS` prefix. -/
def matchClassedOpen (divClassTag : String) (line : String) : Option String :=
  let s := pyStrip line
  let n := leadingColons s
  if n < 3 then none
  else
    let afterWs := pyLStrip (s.drop n)
    if strStarts afterWs divClassTag then
      match lazyToCloseBrace (afterWs.drop divClassTag.length).toList with
      | some attrs => some (pyStrip (String.mk attrs))
      | none => none
    else none

/-- Inner scan of `_extract_inner_divs`: a stripped line with three or more
leading colons whose rest is empty closes a level (the line is dropped), a
rest beginning with an opening brace opens a level (the line is kept), any
other line is kept; the block ends when the depth returns to zero. -/
def innerDivScan : List String → Nat → List String × List String
  | [], _ => ([], [])
  | l :: rest, depth =>
    let s := pyStrip l
    let n := leadingColons s
    if 3 ≤ n then
      let r := pyStrip (s.drop n)
      if r = "" then
        if depth = 1 then ([], rest)
        else
          let (bs, rem) := innerDivScan rest (depth - 1)
          (bs, rem)
      else if strStarts r "\x7b" then
        let (bs, rem) := innerDivScan rest (depth + 1)
        (l :: bs, rem)
      else
        let (bs, rem) := innerDivScan rest depth
        (l :: bs, rem)
    else
      let (bs, rem) := innerDivScan rest depth
      (l :: bs, rem)

/-- Outer loop of `_extract_inner_divs` for a given class tag, paced by
fuel (each step consumes at least one line, `innerDivScan_rem_le`). -/
def innerDivOuter (divClassTag : String) (fuel : ℕ) (ls : List String) :
    List (String × String) :=
  match fuel with
  | 0 => []
  | fuel + 1 =>
    match ls with
    | [] => []
    | l :: rest =>
      match matchClassedOpen divClassTag l with
      | some attrs =>
        (attrs, stripIndent (String.intercalate "\n" (innerDivScan rest 1).1)) ::
          innerDivOuter divClassTag fuel (innerDivScan rest 1).2
      | none => innerDivOuter divClassTag fuel rest

/-- Embedding of `_extract_inner_divs` (specialised by the class tag, e.g.
`\x7b.answer` for `div_class = 'answer'`). -/
def extractInnerDivs (content : String) (divClassTag : String) : List (String × String) :=
  innerDivOuter divClassTag ((splitLines content).length + 1) (splitLines content)

/-- Truthiness of an attribute value (Python `if comment:`). -/
def attrTruthy : AttrVal → Bool
  | .int z => z ≠ 0
  | .float q => q ≠ 0
  | .str s => s ≠ ""

/-- The `correct` detection of `_parse_div_answers`:
`attrs.get('correct') in (True, 'true', 'True', 1)` (Python numeric equality
makes `1`, `1.0` and `True` interchangeable) or the class `.correct`
occurring in the raw attribute text. -/
def divAnswerIsCorrect (attrsStr : String) (attrs : List (String × AttrVal)) : Bool :=
  (match dget "correct" attrs with
   | some (.str s) => decide (s = "true" ∨ s = "True")
   | some (.int z) => decide (z = 1)
   | some (.float q) => decide (q = 1)
   | none => false) ||
  decide (List.IsInfix ".correct".toList attrsStr.toList)

/-- One rich div answer from an extracted `.answer` block. -/
def divAnswerOfBlock (blk : String × String) : Answer :=
  let attrs := parseAttributes blk.1
  let content := pyStrip (stripIndent blk.2)
  let comment := (dget "comment" attrs).getD (.str "")
  { answer_html := some content
    answer_weight := if divAnswerIsCorrect blk.1 attrs then 100 else 0
    answer_comments := if attrTruthy comment then some comment else none }

/-- First line (at column zero) matching `^:::+\s*\{\.answer`, used by
`_parse_div_answers` to split the question text from the answer section. -/
def isAnswerOpenLine (line : String) : Bool :=
  let n := leadingColons line
  3 ≤ n ∧ strStarts (pyLStrip (line.drop n)) "\x7b.answer"

/-- Embedding of `_parse_div_answers`. -/
def parseDivAnswers (content : String) (q : Question) : Question :=
  let lines := splitLines content
  let questionText := match lines.findIdx? isAnswerOpenLine with
    | some i => pyStrip (String.intercalate "\n" (lines.take i))
    | none => pyStrip content
  { q with
    question_text := cleanQuestionText (removeCommentDivs questionText)
    answers := (extractInnerDivs content "\x7b.answer").map divAnswerOfBlock }

/-! ## Named comment divs (`_extract_named_divs`, `_parse_comment_divs`) -/

/-- Opener line of `_extract_named_divs` on the stripped line:
`^:::+\s+name\s*$`. -/
def isNamedDivOpen (name : String) (line : String) : Bool :=
  isNamedOpener name line

/-- Opener of any div recognised inside a named div scan:
`^:::+\s+\S` or `^:::+\s*\{`. -/
def isAnyDivOpen (line : String) : Bool :=
  let s := pyStrip line
  let n := leadingColons s
  3 ≤ n ∧ ((s.drop n) ≠ pyLStrip (s.drop n) ∧ pyStrip (s.drop n) ≠ "" ∨
     strStarts (pyLStrip (s.drop n)) "\x7b")

/-- Inner scan of `_extract_named_divs`: a bare fence closes a level (the
line is dropped), an opener line opens a level (the line is kept), any other
line is kept. -/
def namedDivScan : List String → Nat → List String × List String
  | [], _ => ([], [])
  | l :: rest, depth =>
    if isBareFence l then
      if depth = 1 then ([], rest)
      else
        let (bs, rem) := namedDivScan rest (depth - 1)
        (bs, rem)
    else if isAnyDivOpen l then
      let (bs, rem) := namedDivScan rest (depth + 1)
      (l :: bs, rem)
    else
      let (bs, rem) := namedDivScan rest depth
      (l :: bs, rem)

/-- Outer loop of `_extract_named_divs`, paced by fuel (each step consumes
at least one line, `namedDivScan_rem_le`). -/
def namedDivOuter (name : String) (fuel : ℕ) (ls : List String) : List String :=
  match fuel with
  | 0 => []
  | fuel + 1 =>
    match ls with
    | [] => []
    | l :: rest =>
      if isNamedDivOpen name l then
        (String.intercalate "\n" (namedDivScan rest 1).1) ::
          namedDivOuter name fuel (namedDivScan rest 1).2
      else namedDivOuter name fuel rest

/-- Embedding of `_extract_named_divs`. -/
def extractNamedDivs (content : String) (name : String) : List String :=
  namedDivOuter name ((splitLines content).length + 1) (splitLines content)

/-- Embedding of `_parse_comment_divs`. -/
def parseCommentDivs (content : String) (q : Question) : Question :=
  let cc := extractNamedDivs content "correct-comment"
  let q1 := match cc with
    | [] => q
    | d :: _ => { q with correct_comments := some (pyStrip (stripIndent d)) }
  let ic := extractNamedDivs content "incorrect-comment"
  match ic with
  | [] => q1
  | d :: _ => { q1 with incorrect_comments := some (pyStrip (stripIndent d)) }

/-! ## Question block assembly (`_parse_question_block`, `parse_qmd_quiz`) -/

/-- Embedding of `_parse_question_block` for a block at zero-based position
`index`.  The default question name is the literal `Fråga` (Swedish)
followed by the one-based position, the default type is
`multiple_choice_question` and the default points value is `1`. -/
def parseQuestionBlock (attrsStr content : String) (index : Nat) : Question :=
  let attrs := parseAttributes attrsStr
  let q0 : Question := {
    question_name := (dget "name" attrs).getD (.str ("Fråga " ++ toString (index + 1)))
    question_type := (dget "type" attrs).getD (.str "multiple_choice_question")
    points_possible := (dget "points" attrs).getD (.int 1) }
  let q1 := if hasDivAnswers content then parseDivAnswers content q0
            else parseChecklistAnswers content q0
  parseCommentDivs content q1

/-- Question list of `parse_qmd_quiz` applied to the document body after
frontmatter removal (the YAML frontmatter block is outside the model; its
extraction never fails, an unparsable frontmatter yields empty metadata).
Every extracted block yields a question — the dict returned by
`_parse_question_block` is always non-empty, so the truthiness filter of
`parse_qmd_quiz` keeps every entry. -/
def parseQmdQuizQuestions (body : String) : List Question :=
  (extractQuestionBlocks body).enum.map (fun p => parseQuestionBlock p.2.1 p.2.2 p.1)

/-! ## Formula solution generation (`NewQuizHandler._generate_formula_solutions`)

`random`, `math` and `asteval` are external collaborators: the random draws
and the restricted expression evaluator enter the embedding as oracle
functions.  Sampled values and modification-free arithmetic are exact
rationals; the concrete values of the claims (steps of 2.5 over 0..10) are
binary-float-exact, so nothing is lost by the rational model. -/

/-- Python `round(x)` on a real value: round half to even (banker's
rounding), the rounding mode of CPython `round` on floats. -/
def pyRound (q : ℚ) : ℤ :=
  let f := q - (⌊q⌋ : ℚ)
  if f < 1/2 then ⌊q⌋
  else if 1/2 < f then ⌊q⌋ + 1
  else if ⌊q⌋ % 2 = 0 then ⌊q⌋ else ⌊q⌋ + 1

/-- Python `round(x, n)`: round half to even at the n-th decimal. -/
def pyRoundTo (q : ℚ) (n : ℕ) : ℚ :=
  (pyRound (q * 10 ^ n) : ℚ) / 10 ^ n

/-- One formula variable with its declared range and precision
(`v.get('min', 0)`, `v.get('max', 10)`, `v.get('precision', 0)`). -/
structure QVar where
  name : String
  vmin : ℚ
  vmax : ℚ
  prec : ℕ
deriving DecidableEq, Repr

/-- Precomputed evenly spaced sample values for one variable
(`distribution == 'even'` branch): `count` values stepping by
`(max - min)/(count - 1)` from `min`, rounded to integers when the precision
is zero (via `float(round(...))`) and to `prec` decimals otherwise. -/
def evenValsFor (count : ℕ) (v : QVar) : List ℚ :=
  let step : ℚ := if 1 < count then (v.vmax - v.vmin) / ((count : ℚ) - 1) else 0
  if v.prec = 0 then
    (List.range count).map (fun i => ((pyRound (v.vmin + i * step) : ℚ)))
  else
    (List.range count).map (fun i => pyRoundTo (v.vmin + i * step) v.prec)

/-- The `even_values` dict: one precomputed value list per variable name. -/
def evenTable (vars : List QVar) (count : ℕ) : List (String × List ℚ) :=
  vars.foldl (fun m v => dinsert v.name (evenValsFor count v) m) []

/-- Python value returned by the restricted evaluator, as far as the guard
in `_generate_formula_solutions` can distinguish it: `None`, a finite
float, `nan`, `inf` (of either sign), or a non-float value rendered by
`str`. -/
inductive PyVal where
  | none
  | fin (q : ℚ)
  | nan
  | inf
  | other (s : String)
deriving DecidableEq, Repr

/-- Outcome of one `aeval(formula)` call: the accumulated error list and
the returned value. -/
structure EvalRes where
  errors : List String
  value : PyVal
deriving DecidableEq, Repr

/-- Output string stored in a solution:
`str(round(output_val, 4)) if isinstance(output_val, float) else str(output_val)`
(the decimal rendering of the rational is abstracted by `toString`). -/
def pyValOutputStr : PyVal → String
  | .fin q => ratStr (pyRoundTo q 4)
  | .other s => s
  | .none => "None"
  | .nan => "nan"
  | .inf => "inf"

/-- Guard of `_generate_formula_solutions`: the output is invalid when it is
`None`, or a float that is `nan` or infinite. -/
def validVal : PyVal → Bool
  | .none => false
  | .nan => false
  | .inf => false
  | _ => true

/-- Input tuple built for one iteration: for the `even` distribution the
precomputed table is indexed by the iteration number; otherwise the random
oracle supplies the draw for that iteration and variable. -/
def inputsAt (vars : List QVar) (count : ℕ) (distribution : String)
    (randFn : ℕ → QVar → ℚ) (iteration : ℕ) : List (String × ℚ) :=
  vars.map (fun v =>
    if distribution = "even" then
      (v.name, ((dget v.name (evenTable vars count)).getD []).getD iteration 0)
    else
      (v.name, randFn iteration v))

/-- One generated solution: the named inputs and the rendered output. -/
structure FormulaSolution where
  inputs : List (String × ℚ)
  output : String
deriving DecidableEq, Repr

/-- Main loop of `_generate_formula_solutions`: at each iteration build the
inputs, evaluate, raise (return `.error`) on an evaluator error or an
invalid output value, otherwise append the solution. -/
def genLoop (evalFn : List (String × ℚ) → EvalRes) (vars : List QVar) (count : ℕ)
    (distribution : String) (randFn : ℕ → QVar → ℚ) :
    ℕ → ℕ → List FormulaSolution → Except String (List FormulaSolution)
  | _, 0, acc => .ok acc.reverse
  | iteration, remaining + 1, acc =>
    let inputs := inputsAt vars count distribution randFn iteration
    let res := evalFn inputs
    if res.errors.isEmpty then
      if validVal res.value then
        genLoop evalFn vars count distribution randFn (iteration + 1) remaining
          ({ inputs := inputs, output := pyValOutputStr res.value } :: acc)
      else .error "Formula produced invalid result"
    else .error "Formula evaluation error"

/-- Embedding of `_generate_formula_solutions`.  A raised `ValueError`
becomes the `.error` constructor. -/
def generateFormulaSolutions (evalFn : List (String × ℚ) → EvalRes)
    (vars : List QVar) (count : ℕ) (distribution : String)
    (randFn : ℕ → QVar → ℚ) : Except String (List FormulaSolution) :=
  genLoop evalFn vars count distribution randFn 0 count []

/-! ## Paths

`os.path` operations on normalized POSIX-style paths, modelled on component
lists (the `.replace(backslash, slash)` of the source is the identity on
such paths). -/

/-- Path components (empty components dropped). -/
def splitPath (p : String) : List String :=
  ((splitOnChar '/' p.toList).map String.mk).filter (fun c => c ≠ "")

/-- Join components with slashes. -/
def joinComps (cs : List String) : String :=
  String.intercalate "/" cs

/-- Absolute path test (`os.path.isabs`). -/
def isAbsPath (p : String) : Bool :=
  strStarts p "/"

/-- Drop the common prefix of two component lists. -/
def dropCommon : List String → List String → List String × List String
  | a :: as, b :: bs => if a = b then dropCommon as bs else (a :: as, b :: bs)
  | as, bs => (as, bs)

/-- Embedding of `os.path.relpath(p, root).replace(backslash, slash)` for
normalized paths: strip the common prefix and climb out of what remains of
the root. -/
def relpath (p root : String) : String :=
  let pr := dropCommon (splitPath p) (splitPath root)
  joinComps (pr.2.map (fun _ => "..") ++ pr.1)

/-- Normalize a component list (`os.path.normpath` semantics on the
component level): drop `.`, cancel `..` against a preceding component. -/
def normComps : List String → List String → List String
  | acc, [] => acc.reverse
  | acc, c :: cs =>
    if c = "." then normComps acc cs
    else if c = ".." then
      match acc with
      | a :: as => if a = ".." then normComps (".." :: acc) cs else normComps as cs
      | [] => normComps [".."] cs
  else normComps (c :: acc) cs

/-- Embedding of `os.path.normpath(os.path.join(base, target))` as used to
resolve a relative link target against the directory of the current file. -/
def normJoin (base target : String) : String :=
  (if isAbsPath base then "/" else "") ++
    joinComps (normComps [] (splitPath base ++ splitPath target))

/-- Embedding of `os.path.basename` for normalized paths. -/
def pathBasename (p : String) : String :=
  (splitPath p).getLastD p

/-- Extension part of `os.path.splitext` (split at the last dot, a single
leading dot starts no extension). -/
def splitextExt (name : String) : String :=
  let cs := name.toList
  match (cs.enum.filter (fun ci => ci.2 = '.' ∧ ci.1 ≠ 0)).getLast? with
  | some ci => String.mk (cs.drop ci.1)
  | none => ""

/-- Stem part of `os.path.splitext`. -/
def splitextStem (name : String) : String :=
  let cs := name.toList
  match (cs.enum.filter (fun ci => ci.2 = '.' ∧ ci.1 ≠ 0)).getLast? with
  | some ci => String.mk (cs.take ci.1)
  | none => name

/-- Embedding of `os.path.dirname` for normalized paths. -/
def pathDirname (p : String) : String :=
  (if isAbsPath p then "/" else "") ++ joinComps ((splitPath p).dropLast)

/-- Embedding of `os.path.join(a, b)` for a non-empty relative `b`. -/
def joinPath (a b : String) : String :=
  if isAbsPath b then b
  else if a = "" then b
  else if a = "/" then "/" ++ b
  else a ++ "/" ++ b

/-! ## Remote state and sync map

The Canvas course is modelled as explicit state: folders with files, pages,
assignments and quizzes.  Remote create / edit / upload / delete calls are
state transitions that always succeed (network failures are out of the
model); `writes` counts the remote write operations performed.  The sync
map is the parsed content of `.canvas_sync_map.json`, persisted after each
mutation — single-threaded execution makes the repeated load / save of the
source equivalent to threading one map value. -/

/-- Structured sync-map record (`\x7bid, mtime, url\x7d`, each key
optional). -/
structure SyncRec where
  id : Option Nat := none
  mtime : Option ℚ := none
  url : Option String := none
deriving DecidableEq, Repr

/-- A sync-map entry: either a legacy bare ID or a structured record. -/
inductive SyncEntry where
  | bare (id : Nat)
  | record (r : SyncRec)
deriving DecidableEq, Repr

/-- Remote file inside a Canvas folder. -/
structure RFile where
  id : Nat
  filename : String
deriving DecidableEq, Repr

/-- Remote Canvas folder. -/
structure RFolder where
  fid : Nat
  name : String
  files : List RFile
deriving DecidableEq, Repr

/-- Remote Canvas wiki page. -/
structure RPage where
  pid : Nat
  title : String
  body : Option String := none
  published : Bool := false
deriving DecidableEq, Repr

/-- Remote Canvas assignment.  `body` stands for the description field,
which the JIT stub creation never sets. -/
structure RAssignment where
  aid : Nat
  name : String
  body : Option String := none
  published : Bool := false
deriving DecidableEq, Repr

/-- Remote quiz question payload, with the fields the question-sync
comparison of `QuizHandler.sync` reads. -/
structure QData where
  question_name : String
  question_text : String := ""
  points_possible : ℚ := 0
  question_type : String := ""
  answers : List String := []
deriving DecidableEq, Repr

/-- Remote Canvas quiz.  `description` stands for the description field,
which the JIT stub creation never sets. -/
structure RQuiz where
  qid : Nat
  title : String
  published : Bool := false
  quizType : Option String := none
  description : Option String := none
  questions : List QData := []
deriving DecidableEq, Repr

/-- Whole process state during one run: the persisted sync map, the remote
course, the run-scoped caches (`FOLDER_CACHE`, `ACTIVE_ASSET_IDS`), a
fresh-ID supply for created remote objects and the count of remote write
operations. -/
structure RunState where
  syncMap : List (String × SyncEntry) := []
  folders : List RFolder := []
  folderCache : List (String × Nat) := []
  activeAssets : List Nat := []
  pages : List RPage := []
  assignments : List RAssignment := []
  quizzes : List RQuiz := []
  nextId : Nat := 1
  writes : Nat := 0
deriving DecidableEq, Repr

/-- Local file system visible to the sync engine: modification times
(`None` = the path does not exist) and, for content files, the declared
frontmatter title and canvas type. -/
structure Fs where
  mtime : String → Option ℚ
  title : String → Option String
  ctype : String → Option String

/-- The two system-managed namespaces (`FOLDER_IMAGES`, `FOLDER_FILES`). -/
def FOLDER_IMAGES : String := "synced-images"

def FOLDER_FILES : String := "synced-files"

/-- Embedding of `get_mapped_id`: ID and metadata for a local path. -/
def get_mapped_id (syncMap : List (String × SyncEntry)) (contentRoot filePath : String) :
    Option Nat × Option SyncRec :=
  match dget (relpath filePath contentRoot) syncMap with
  | some (.record r) => (r.id, some r)
  | some (.bare i) => (some i, none)
  | none => (none, none)

/-- Embedding of `save_mapped_id`. -/
def save_mapped_id (syncMap : List (String × SyncEntry)) (contentRoot filePath : String)
    (canvasId : Nat) (mtime : Option ℚ) : List (String × SyncEntry) :=
  match mtime with
  | some m =>
    dinsert (relpath filePath contentRoot)
      (.record { id := some canvasId, mtime := some m, url := none }) syncMap
  | none => dinsert (relpath filePath contentRoot) (.bare canvasId) syncMap

/-- URL assigned by the model to an uploaded file; never empty. -/
def mkFileUrl (i : Nat) : String := "https://canvas/files/" ++ toString i

/-- Truthiness of the cached URL (`cached_entry.get('url')`). -/
def truthyUrl : Option String → Bool
  | some u => u ≠ ""
  | none => false

/-- Add an asset ID to `ACTIVE_ASSET_IDS` (a set). -/
def addActive (i : Nat) (s : List Nat) : List Nat :=
  if i ∈ s then s else i :: s

/-- Embedding of `get_or_create_folder`: consult the cache (keys are
lowercased names), on a miss fetch all folders into the cache, then create
the folder only if it is still missing.  Returns the folder ID. -/
def get_or_create_folder (st : RunState) (folderPath : String) : Nat × RunState :=
  let key := strLower folderPath
  match dget key st.folderCache with
  | some fid => (fid, st)
  | none =>
    let cache2 := st.folders.foldl (fun c f => dinsert (strLower f.name) f.fid c) st.folderCache
    match dget key cache2 with
    | some fid => (fid, { st with folderCache := cache2 })
    | none =>
      let fid := st.nextId
      let nf : RFolder := { fid := fid, name := folderPath, files := [] }
      (fid, { st with folders := st.folders ++ [nf],
                      folderCache := dinsert key fid cache2,
                      nextId := st.nextId + 1,
                      writes := st.writes + 1 })

/-- Embedding of `upload_file`.  Missing local file: return the path with a
null ID and change nothing.  With a content root, a sync-map record whose
mtime equals the current one and whose URL is truthy is reused without any
remote call (the cached ID is marked active if truthy).  Otherwise the
target folder is resolved and the file uploaded (`on_duplicate=overwrite`
replaces a file of the same name under a fresh ID), the new ID is marked
active if truthy, and the sync-map record is rewritten. -/
def upload_file (st : RunState) (fs : Fs) (localPath targetFolderName : String)
    (contentRoot : Option String) : (String × Option Nat) × RunState :=
  match fs.mtime localPath with
  | none => ((localPath, none), st)
  | some mtime =>
    let cacheRec : Option SyncRec :=
      match contentRoot with
      | some root =>
        match dget (relpath localPath root) st.syncMap with
        | some (.record r) =>
          if r.mtime = some mtime ∧ truthyUrl r.url then some r else none
        | _ => none
      | none => none
    match cacheRec with
    | some r =>
      let st2 := match r.id with
        | some i => if i ≠ 0 then { st with activeAssets := addActive i st.activeAssets } else st
        | none => st
      ((r.url.getD "", r.id), st2)
    | none =>
      let fr := get_or_create_folder st targetFolderName
      let st1 := fr.2
      let fileId := st1.nextId
      let url := mkFileUrl fileId
      let bn := pathBasename localPath
      let folders2 := st1.folders.map (fun f =>
        if f.fid = fr.1 then
          { f with files := f.files.filter (fun x => x.filename ≠ bn) ++
              [{ id := fileId, filename := bn }] }
        else f)
      let active2 := if fileId ≠ 0 then addActive fileId st1.activeAssets else st1.activeAssets
      let syncMap2 := match contentRoot with
        | some root =>
          dinsert (relpath localPath root)
            (.record { id := some fileId, mtime := some mtime, url := some url }) st1.syncMap
        | none => st1.syncMap
      ((url, some fileId),
        { st1 with folders := folders2, activeAssets := active2, syncMap := syncMap2,
                   nextId := st1.nextId + 1, writes := st1.writes + 1 })

/-- One folder pass of `prune_orphaned_assets`: resolve the managed folder
and delete every file in it whose ID is not active. -/
def pruneFolder (st : RunState) (folderName : String) : RunState :=
  let fr := get_or_create_folder st folderName
  { fr.2 with folders := fr.2.folders.map (fun f =>
      if f.fid = fr.1 then
        { f with files := f.files.filter (fun x => x.id ∈ fr.2.activeAssets) }
      else f) }

/-- Embedding of `prune_orphaned_assets`: sweep the two managed
namespaces, in source order. -/
def prune_orphaned_assets (st : RunState) : RunState :=
  pruneFolder (pruneFolder st FOLDER_IMAGES) FOLDER_FILES

/-! ## Cross-reference resolution (`resolve_cross_link`) -/

/-- Canonical address of a remote object in the model (`html_url`). -/
def pageHtmlUrl (i : Nat) : String := "https://canvas/pages/" ++ toString i

def assignmentHtmlUrl (i : Nat) : String := "https://canvas/assignments/" ++ toString i

def quizHtmlUrl (i : Nat) : String := "https://canvas/quizzes/" ++ toString i

/-- Branch of `resolve_cross_link` after title and type are known: search
the remote collection of that type for the first exact title match; when no
match exists, create the minimal unpublished stub of that type (only a page
stub carries the placeholder body; assignment and quiz stubs are created
with only the title and the unpublished flag, a quiz stub additionally with
`quiz_type = assignment`).  An unrecognised type keeps the raw link target
(the initialized fallback). -/
def resolveByType (st : RunState) (targetTitle targetType linkTarget : String) :
    String × RunState :=
  if targetType = "page" then
    match st.pages.find? (fun p => p.title = targetTitle) with
    | some p => (pageHtmlUrl p.pid, st)
    | none =>
      let pid := st.nextId
      let stub : RPage := { pid := pid, title := targetTitle, published := false,
                            body := some "<i>Placeholder for future sync.</i>" }
      (pageHtmlUrl pid,
        { st with pages := st.pages ++ [stub], nextId := st.nextId + 1,
                  writes := st.writes + 1 })
  else if targetType = "assignment" then
    match st.assignments.find? (fun a => a.name = targetTitle) with
    | some a => (assignmentHtmlUrl a.aid, st)
    | none =>
      let aid := st.nextId
      let stub : RAssignment := { aid := aid, name := targetTitle, published := false,
                                  body := none }
      (assignmentHtmlUrl aid,
        { st with assignments := st.assignments ++ [stub], nextId := st.nextId + 1,
                  writes := st.writes + 1 })
  else if targetType = "quiz" then
    match st.quizzes.find? (fun q => q.title = targetTitle) with
    | some q => (quizHtmlUrl q.qid, st)
    | none =>
      let qid := st.nextId
      let stub : RQuiz := { qid := qid, title := targetTitle, published := false,
                            quizType := some "assignment", description := none,
                            questions := [] }
      (quizHtmlUrl qid,
        { st with quizzes := st.quizzes ++ [stub], nextId := st.nextId + 1,
                  writes := st.writes + 1 })
  else (linkTarget, st)

/-- Embedding of `resolve_cross_link`: resolve the target path against the
base directory, read its declared title and type (a `.qmd` target defaults
to type `page`, a `.json` target is a quiz; other extensions and missing
files keep the raw link), then find or JIT-create the remote object. -/
def resolve_cross_link (st : RunState) (fs : Fs) (linkTarget basePath : String) :
    String × RunState :=
  let absTarget := if isAbsPath linkTarget then linkTarget else normJoin basePath linkTarget
  match fs.mtime absTarget with
  | none => (linkTarget, st)
  | some _ =>
    let filename := pathBasename absTarget
    let ext := strLower (splitextExt filename)
    if ext = ".qmd" then
      let targetTitle := (fs.title absTarget).getD (splitextStem filename)
      let targetType := (fs.ctype absTarget).getD "page"
      resolveByType st targetTitle targetType linkTarget
    else if ext = ".json" then
      let targetTitle := (fs.title absTarget).getD (splitextStem filename)
      resolveByType st targetTitle "quiz" linkTarget
    else (linkTarget, st)

/-! ## Page and quiz synchronisation (`PageHandler.sync`, `QuizHandler.sync`)

The regex scan of `process_content` is abstracted by a list of the asset
references it finds: `(path, namespace)` pairs uploaded through
`upload_file` (cross-content links resolve through `resolve_cross_link`,
modelled separately).  The Quarto renderer is an external collaborator; its
output enters as the `rendered` parameter and rendering itself performs no
remote write.  Module placement (`add_to_module`) is outside the model. -/

/-- The asset-upload part of `process_content`: upload each referenced
asset into its namespace folder, threading the state. -/
def processContentAssets (st : RunState) (fs : Fs) (assets : List (String × String))
    (contentRoot : Option String) : RunState :=
  assets.foldl (fun s pf => (upload_file s fs pf.1 pf.2 contentRoot).2) st

/-- Edit of an existing page (`page_obj.edit(wiki_page=...)`). -/
def editPage (st : RunState) (pid : Nat) (title body : String) (published : Bool) : RunState :=
  { st with
    pages := st.pages.map (fun p =>
      if p.pid = pid then { p with title := title, body := some body, published := published }
      else p)
    writes := st.writes + 1 }

/-- Embedding of `PageHandler.sync`.  Returns the state and whether the
render was skipped.  Steps: smart-sync check (a truthy mapped ID with a dict
entry whose mtime equals the file's current mtime skips the render,
provided the cached page still resolves), unconditional content processing
(asset uploads, to keep `ACTIVE_ASSET_IDS` complete), then render,
create-or-update and sync-map save only when needed. -/
def pageSync (st : RunState) (fs : Fs) (filePath : String) (contentRoot : Option String)
    (title : String) (assets : List (String × String)) (rendered : String)
    (published : Bool) : RunState × Bool :=
  let currentMtime := (fs.mtime filePath).getD 0
  let idEntry := match contentRoot with
    | some root => get_mapped_id st.syncMap root filePath
    | none => (none, none)
  let skipPid : Option Nat :=
    match idEntry with
    | (some pid, some r) =>
      if pid ≠ 0 ∧ r.mtime = some currentMtime ∧ st.pages.any (fun p => p.pid = pid) then
        some pid
      else none
    | _ => none
  let st1 := processContentAssets st fs assets contentRoot
  match skipPid with
  | some _ => (st1, true)
  | none =>
    let pr : Nat × RunState :=
      match st1.pages.find? (fun p => p.title = title) with
      | some p => (p.pid, editPage st1 p.pid title rendered published)
      | none =>
        let pid := st1.nextId
        (pid, { st1 with
                 pages := st1.pages ++
                   [{ pid := pid, title := title, body := some rendered,
                      published := published }]
                 nextId := st1.nextId + 1
                 writes := st1.writes + 1 })
    let st3 := match contentRoot with
      | some root =>
        let sm := save_mapped_id pr.2.syncMap root filePath pr.1 (some currentMtime)
        { pr.2 with syncMap := sm }
      | none => pr.2
    (st3, false)

/-- Quiz edit applying the settings payload (`quiz_obj.edit(quiz=...)`). -/
def editQuizFields (st : RunState) (qid : Nat) (title : String) (published : Bool)
    (quizType : String) : RunState :=
  { st with
    quizzes := st.quizzes.map (fun q =>
      if q.qid = qid then
        { q with title := title, published := published, quizType := some quizType }
      else q)
    writes := st.writes + 1 }

/-- Quiz edit toggling only the published flag (draft-mode dance and the
final republish). -/
def editQuizPublished (st : RunState) (qid : Nat) (published : Bool) : RunState :=
  { st with
    quizzes := st.quizzes.map (fun q =>
      if q.qid = qid then { q with published := published } else q)
    writes := st.writes + 1 }

/-- Whether an existing question needs an update (the field comparison of
`QuizHandler.sync`). -/
def qDiffers (existing q : QData) : Bool :=
  existing.question_text ≠ q.question_text ∨
  existing.points_possible ≠ q.points_possible ∨
  existing.question_type ≠ q.question_type ∨
  existing.answers ≠ q.answers

/-- Replace a question (matched by name) inside a quiz
(`existing_q.edit(question=...)`). -/
def editQuestion (st : RunState) (qid : Nat) (q : QData) : RunState :=
  { st with
    quizzes := st.quizzes.map (fun qz =>
      if qz.qid = qid then
        { qz with questions := qz.questions.map (fun e =>
            if e.question_name = q.question_name then q else e) }
      else qz)
    writes := st.writes + 1 }

/-- Append a new question to a quiz (`quiz_obj.create_question`). -/
def createQuestion (st : RunState) (qid : Nat) (q : QData) : RunState :=
  { st with
    quizzes := st.quizzes.map (fun qz =>
      if qz.qid = qid then { qz with questions := qz.questions ++ [q] } else qz)
    writes := st.writes + 1 }

/-- Question synchronisation: the existing-question map is captured once
before the loop; each incoming question is compared and edited, or
created. -/
def syncQuestions (st : RunState) (qid : Nat) (qds : List QData) : RunState :=
  let existing := ((st.quizzes.find? (fun q => q.qid = qid)).map (fun q => q.questions)).getD []
  qds.foldl (fun s qd =>
    match existing.find? (fun e => e.question_name = qd.question_name) with
    | some e => if qDiffers e qd then editQuestion s qid qd else s
    | none => createQuestion s qid qd) st

/-- Embedding of `QuizHandler.sync`.  Returns the state and whether the
update was skipped.  The fingerprint is `json_mtime + desc_mtime`, where the
description contribution is zero when no description file is declared or it
does not exist.  A truthy mapped ID whose quiz still resolves and whose
stored mtime equals the fingerprint skips everything; otherwise the quiz is
found by ID or exact title (first match), or created in draft mode, the
sync map is updated, questions are synced and the quiz is republished. -/
def quizSync (st : RunState) (fs : Fs) (filePath : String) (contentRoot : Option String)
    (title : String) (descFile : Option String) (assets : List (String × String))
    (questionsData : List QData) (published : Bool) (quizType : String) :
    RunState × Bool :=
  let jsonMtime := (fs.mtime filePath).getD 0
  let descMtime : ℚ :=
    match descFile with
    | some d =>
      match fs.mtime (joinPath (pathDirname filePath) d) with
      | some m => m
      | none => 0
    | none => 0
  let currentMtime := jsonMtime + descMtime
  let idEntry := match contentRoot with
    | some root => get_mapped_id st.syncMap root filePath
    | none => (none, none)
  let found : Option Nat :=
    match idEntry.1 with
    | some qid =>
      if qid ≠ 0 ∧ st.quizzes.any (fun q => q.qid = qid) then some qid else none
    | none => none
  let needsUpdate : Bool :=
    match found, idEntry.2 with
    | some _, some r => r.mtime ≠ some currentMtime
    | some _, none => true
    | none, _ => true
  if needsUpdate then
    let quizObj : Option Nat :=
      match found with
      | some qid => some qid
      | none => (st.quizzes.find? (fun q => q.title = title)).map (fun q => q.qid)
    let st1 := processContentAssets st fs assets contentRoot
    let qr : Nat × RunState :=
      match quizObj with
      | some qid =>
        (qid, editQuizFields (editQuizPublished st1 qid false) qid title false quizType)
      | none =>
        let qid := st1.nextId
        (qid, { st1 with
                 quizzes := st1.quizzes ++
                   [{ qid := qid, title := title, published := false,
                      quizType := some quizType, description := none, questions := [] }]
                 nextId := st1.nextId + 1
                 writes := st1.writes + 1 })
    let st3 := match contentRoot with
      | some root =>
        let sm := save_mapped_id qr.2.syncMap root filePath qr.1 (some currentMtime)
        { qr.2 with syncMap := sm }
      | none => qr.2
    let st4 := syncQuestions st3 qr.1 questionsData
    (editQuizPublished st4 qr.1 published, false)
  else
    (st, true)

/-- Solution the loop produces at iteration `k` (characterisation used by
the theorems below). -/
def solAt (evalFn : List (String × ℚ) → EvalRes) (vars : List QVar) (count : ℕ)
    (distribution : String) (randFn : ℕ → QVar → ℚ) (k : ℕ) : FormulaSolution :=
  { inputs := inputsAt vars count distribution randFn k
    output := pyValOutputStr (evalFn (inputsAt vars count distribution randFn k)).value }

/-- Iteration `k` passes the evaluation guard. -/
def goodIter (evalFn : List (String × ℚ) → EvalRes) (vars : List QVar) (count : ℕ)
    (distribution : String) (randFn : ℕ → QVar → ℚ) (k : ℕ) : Prop :=
  (evalFn (inputsAt vars count distribution randFn k)).errors.isEmpty = true ∧
  validVal (evalFn (inputsAt vars count distribution randFn k)).value = true

/-- Local file system for the stubbing scenario: one quiz-typed `.qmd`
target exists. -/
def wJitFs : Fs :=
  { mtime := fun p => if p = "/c/q.qmd" then some 1 else none,
    title := fun p => if p = "/c/q.qmd" then some "Quiz One" else none,
    ctype := fun p => if p = "/c/q.qmd" then some "quiz" else none }

/-- The folder cache is consistent: every cached entry points at a folder
whose lowercased name is the cache key.  This is an invariant of the run:
the cache is only filled from folder listings and folder creations. -/
def cacheConsistent (st : RunState) : Prop :=
  ∀ p ∈ st.folderCache, ∃ f ∈ st.folders, f.fid = p.2 ∧ strLower f.name = p.1

/-- Concrete run state for exercising the orphan sweep: the two managed
folders hold one active and two orphaned files, and a third folder lies
outside the managed namespaces. -/
def wSweepSt : RunState :=
  { folders := [⟨10, "synced-images", [⟨1, "a.png"⟩, ⟨2, "b.png"⟩]⟩,
                ⟨11, "synced-files", [⟨3, "c.pdf"⟩]⟩,
                ⟨12, "Course Stuff", [⟨4, "keep.txt"⟩]⟩],
    activeAssets := [1] }

def wFolderI : RFolder := ⟨10, "synced-images", [⟨1, "a.png"⟩, ⟨2, "b.png"⟩]⟩

def wFolderF : RFolder := ⟨11, "synced-files", [⟨3, "c.pdf"⟩]⟩

/-- Local file system for the fingerprint scenario: first run. -/
def wC7Fs1 : Fs :=
  { mtime := fun p => if p = "course/quiz.json" then some 100 else
      if p = "course/desc.md" then some 7 else none,
    title := fun _ => none, ctype := fun _ => none }

/-- Second run: the quiz file was touched, the description file unchanged. -/
def wC7Fs2 : Fs :=
  { mtime := fun p => if p = "course/quiz.json" then some 101 else
      if p = "course/desc.md" then some 7 else none,
    title := fun _ => none, ctype := fun _ => none }

/-- A local asset's sync-map entry is warm: either the file is missing (its
upload is a no-op) or the map holds a record with the file's current
modification time and a truthy URL, so `upload_file` takes the cached
branch without any remote call. -/
def entryOK (fs : Fs) (root : String) (st : RunState) (a : String × String) : Prop :=
  fs.mtime a.1 = none ∨
  ∃ r m, fs.mtime a.1 = some m ∧
    dget (relpath a.1 root) st.syncMap = some (.record r) ∧
    r.mtime = some m ∧ truthyUrl r.url = true

/-- Ready state of a page artifact: the sync map holds a record whose ID is
truthy and resolves to an existing page and whose stored mtime equals the
file's current mtime, and every asset entry is warm. -/
def pageReady (fs : Fs) (root filePath : String) (assets : List (String × String))
    (st : RunState) : Prop :=
  (∃ pid r, dget (relpath filePath root) st.syncMap = some (.record r) ∧
     r.id = some pid ∧ pid ≠ 0 ∧ r.mtime = some ((fs.mtime filePath).getD 0) ∧
     st.pages.any (fun p => p.pid = pid) = true) ∧
  (∀ a ∈ assets, entryOK fs root st a)

/-- The update path of `pageSync` (after the smart-sync check decided not to
skip), starting from the state left by content processing. -/
def pageSyncRest (st1 : RunState) (fs : Fs) (root filePath title rendered : String)
    (published : Bool) : RunState :=
  let pr : Nat × RunState :=
    match st1.pages.find? (fun p => p.title = title) with
    | some p => (p.pid, editPage st1 p.pid title rendered published)
    | none =>
      let pid := st1.nextId
      (pid, { st1 with
               pages := st1.pages ++
                 [{ pid := pid, title := title, body := some rendered,
                    published := published }]
               nextId := st1.nextId + 1
               writes := st1.writes + 1 })
  { pr.2 with
    syncMap := save_mapped_id pr.2.syncMap root filePath pr.1
      (some ((fs.mtime filePath).getD 0)) }

/-- The update path of `QuizHandler.sync` (after the smart-sync check
decided the quiz is stale), starting from the state left by content
processing and the resolved quiz object (`None` = create in draft mode). -/
def quizSyncUpd (st1 : RunState) (root filePath title : String) (cm : ℚ)
    (qds : List QData) (pub : Bool) (qt : String) (obj : Option Nat) : RunState :=
  let qr : Nat × RunState :=
    match obj with
    | some qid =>
      (qid, editQuizFields (editQuizPublished st1 qid false) qid title false qt)
    | none =>
      let qid := st1.nextId
      (qid, { st1 with
               quizzes := st1.quizzes ++
                 [{ qid := qid, title := title, published := false,
                    quizType := some qt, description := none, questions := [] }]
               nextId := st1.nextId + 1
               writes := st1.writes + 1 })
  let st3 := { qr.2 with
    syncMap := save_mapped_id qr.2.syncMap root filePath qr.1 (some cm) }
  editQuizPublished (syncQuestions st3 qr.1 qds) qr.1 pub

/-- The composite change-detection fingerprint of a quiz: the quiz file's
modification time plus the declared description file's (zero when absent),
exactly as computed at the top of `QuizHandler.sync`. -/
def quizFingerprint (fs : Fs) (filePath : String) (descFile : Option String) : ℚ :=
  (fs.mtime filePath).getD 0 +
    (match descFile with
     | some dd =>
       match fs.mtime (joinPath (pathDirname filePath) dd) with
       | some m => m
       | none => 0
     | none => 0)

/-- Local file system for the idempotence scenario: a page source, one
image asset and a quiz file exist; everything else is missing. -/
def wC1Fs : Fs :=
  { mtime := fun p => if p = "course/page.qmd" then some 50 else
      if p = "course/img.png" then some 3 else
      if p = "course/quiz.json" then some 100 else none,
    title := fun _ => none, ctype := fun _ => none }

/-! ## Theorems -/

theorem tryMatchAttr_pos (l : List Char) (k : String) (v : AttrVal) (n : Nat)
    (h : tryMatchAttr l = some (k, v, n)) : 1 ≤ n := by
  unfold tryMatchAttr at h
  by_cases hw : (l.takeWhile isWordChar).length = 0
  · simp [hw] at h
  · simp only [hw, if_false] at h
    revert h
    split
    · split
      · intro h
        injection h with h1
        have h2 := congrArg (fun p => p.2.2) h1
        simp only at h2
        omega
      · intro h; simp at h
    · intro h; simp at h

theorem qbScan_rem_le (ls : List String) (d : Nat) : (qbScan ls d).2.length ≤ ls.length := by
  induction ls generalizing d with
  | nil => simp [qbScan]
  | cons l rest ih =>
    simp only [qbScan]
    split
    · split
      · split
        · simp
        · have := ih (d - 1)
          simp only []
          calc (qbScan rest (d - 1)).2.length ≤ rest.length := ih (d - 1)
            _ ≤ (l :: rest).length := by simp
      · split
        · calc (qbScan rest (d + 1)).2.length ≤ rest.length := ih (d + 1)
            _ ≤ (l :: rest).length := by simp
        · calc (qbScan rest d).2.length ≤ rest.length := ih d
            _ ≤ (l :: rest).length := by simp
    · calc (qbScan rest d).2.length ≤ rest.length := ih d
        _ ≤ (l :: rest).length := by simp

theorem innerDivScan_rem_le (ls : List String) (d : Nat) :
    (innerDivScan ls d).2.length ≤ ls.length := by
  induction ls generalizing d with
  | nil => simp [innerDivScan]
  | cons l rest ih =>
    simp only [innerDivScan]
    split
    · split
      · split
        · simp
        · calc (innerDivScan rest (d - 1)).2.length ≤ rest.length := ih (d - 1)
            _ ≤ (l :: rest).length := by simp
      · split
        · calc (innerDivScan rest (d + 1)).2.length ≤ rest.length := ih (d + 1)
            _ ≤ (l :: rest).length := by simp
        · calc (innerDivScan rest d).2.length ≤ rest.length := ih d
            _ ≤ (l :: rest).length := by simp
    · calc (innerDivScan rest d).2.length ≤ rest.length := ih d
        _ ≤ (l :: rest).length := by simp

theorem namedDivScan_rem_le (ls : List String) (d : Nat) :
    (namedDivScan ls d).2.length ≤ ls.length := by
  induction ls generalizing d with
  | nil => simp [namedDivScan]
  | cons l rest ih =>
    simp only [namedDivScan]
    split
    · split
      · simp
      · calc (namedDivScan rest (d - 1)).2.length ≤ rest.length := ih (d - 1)
          _ ≤ (l :: rest).length := by simp
    · split
      · calc (namedDivScan rest (d + 1)).2.length ≤ rest.length := ih (d + 1)
          _ ≤ (l :: rest).length := by simp
      · calc (namedDivScan rest d).2.length ≤ rest.length := ih d
          _ ≤ (l :: rest).length := by simp

/-! ## Association list lemmas -/

theorem dget_dinsert_self {α : Type} (k : String) (v : α) (m : List (String × α)) :
    dget k (dinsert k v m) = some v := by
  induction m with
  | nil => simp [dget, dinsert]
  | cons p m ih =>
    by_cases h : p.1 = k
    · simp [dget, dinsert, h]
    · simp only [dinsert, if_neg h]
      simpa [dget, List.find?, h] using ih

theorem dget_cons {α : Type} (k : String) (p : String × α) (m : List (String × α)) :
    dget k (p :: m) = if p.1 = k then some p.2 else dget k m := by
  by_cases h : p.1 = k
  · simp [dget, List.find?, h]
  · simp [dget, List.find?, h]

theorem dget_dinsert_ne {α : Type} (k k2 : String) (v : α) (m : List (String × α))
    (h : k2 ≠ k) : dget k2 (dinsert k v m) = dget k2 m := by
  induction m with
  | nil => simp [dget, dinsert, List.find?, Ne.symm h]
  | cons p m ih =>
    by_cases hp : p.1 = k
    · simp only [dinsert, if_pos hp]
      rw [dget_cons, dget_cons, if_neg (by simpa using Ne.symm h),
        if_neg (fun hh : p.1 = k2 => h (hp ▸ hh).symm)]
    · simp only [dinsert, if_neg hp]
      rw [dget_cons, dget_cons]
      by_cases hk2 : p.1 = k2
      · simp [hk2]
      · simp only [if_neg hk2]
        exact ih

theorem mem_dinsert {α : Type} (k : String) (v : α) (m : List (String × α)) (p : String × α)
    (h : p ∈ dinsert k v m) : p = (k, v) ∨ p ∈ m := by
  induction m with
  | nil => simpa [dinsert] using h
  | cons q m ih =>
    by_cases hq : q.1 = k
    · simp only [dinsert, if_pos hq] at h
      rcases List.mem_cons.1 h with h1 | h1
      · exact Or.inl h1
      · exact Or.inr (List.mem_cons_of_mem _ h1)
    · simp only [dinsert, if_neg hq] at h
      rcases List.mem_cons.1 h with h1 | h1
      · exact Or.inr (h1 ▸ List.mem_cons_self _ _)
      · rcases ih h1 with h2 | h2
        · exact Or.inl h2
        · exact Or.inr (List.mem_cons_of_mem _ h2)

/-! ## Parser metadata lemmas -/

theorem parseChecklistAnswers_meta (content : String) (q : Question) :
    (parseChecklistAnswers content q).question_name = q.question_name ∧
    (parseChecklistAnswers content q).question_type = q.question_type ∧
    (parseChecklistAnswers content q).points_possible = q.points_possible := by
  unfold parseChecklistAnswers
  rcases h : List.findIdx? (fun l => (checkItemSplit l).isSome) (splitLines content) with _ | i <;>
    simp [h]

theorem parseDivAnswers_meta (content : String) (q : Question) :
    (parseDivAnswers content q).question_name = q.question_name ∧
    (parseDivAnswers content q).question_type = q.question_type ∧
    (parseDivAnswers content q).points_possible = q.points_possible := by
  unfold parseDivAnswers
  simp

theorem parseCommentDivs_meta (content : String) (q : Question) :
    (parseCommentDivs content q).question_name = q.question_name ∧
    (parseCommentDivs content q).question_type = q.question_type ∧
    (parseCommentDivs content q).points_possible = q.points_possible ∧
    (parseCommentDivs content q).question_text = q.question_text ∧
    (parseCommentDivs content q).answers = q.answers := by
  unfold parseCommentDivs
  cases extractNamedDivs content "correct-comment" <;>
    cases extractNamedDivs content "incorrect-comment" <;> simp

theorem parseQuestionBlock_meta (attrsStr content : String) (index : Nat) :
    (parseQuestionBlock attrsStr content index).question_name =
      ((dget "name" (parseAttributes attrsStr)).getD
        (.str ("Fråga " ++ toString (index + 1)))) ∧
    (parseQuestionBlock attrsStr content index).question_type =
      ((dget "type" (parseAttributes attrsStr)).getD (.str "multiple_choice_question")) ∧
    (parseQuestionBlock attrsStr content index).points_possible =
      ((dget "points" (parseAttributes attrsStr)).getD (.int 1)) := by
  unfold parseQuestionBlock
  by_cases h : hasDivAnswers content
  · simp only [h, if_true]
    have hc := parseCommentDivs_meta content
      (parseDivAnswers content
        { question_name := (dget "name" (parseAttributes attrsStr)).getD
            (.str ("Fråga " ++ toString (index + 1)))
          question_type := (dget "type" (parseAttributes attrsStr)).getD
            (.str "multiple_choice_question")
          points_possible := (dget "points" (parseAttributes attrsStr)).getD (.int 1) })
    have hd := parseDivAnswers_meta content
      { question_name := (dget "name" (parseAttributes attrsStr)).getD
          (.str ("Fråga " ++ toString (index + 1)))
        question_type := (dget "type" (parseAttributes attrsStr)).getD
          (.str "multiple_choice_question")
        points_possible := (dget "points" (parseAttributes attrsStr)).getD (.int 1) }
    exact ⟨hc.1.trans hd.1, (hc.2.1.trans hd.2.1), hc.2.2.1.trans hd.2.2⟩
  · simp only [h, if_false]
    have hc := parseCommentDivs_meta content
      (parseChecklistAnswers content
        { question_name := (dget "name" (parseAttributes attrsStr)).getD
            (.str ("Fråga " ++ toString (index + 1)))
          question_type := (dget "type" (parseAttributes attrsStr)).getD
            (.str "multiple_choice_question")
          points_possible := (dget "points" (parseAttributes attrsStr)).getD (.int 1) })
    have hd := parseChecklistAnswers_meta content
      { question_name := (dget "name" (parseAttributes attrsStr)).getD
          (.str ("Fråga " ++ toString (index + 1)))
        question_type := (dget "type" (parseAttributes attrsStr)).getD
          (.str "multiple_choice_question")
        points_possible := (dget "points" (parseAttributes attrsStr)).getD (.int 1) }
    exact ⟨hc.1.trans hd.1, (hc.2.1.trans hd.2.1), hc.2.2.1.trans hd.2.2⟩

/-! ## Claim C10 -/

/-- C10: a call to `upload_file` whose local path does not exist returns the
original path with a null asset ID, raises nothing, and leaves the whole
state (folder cache, folders, sync map, active-asset set, write count)
unchanged. -/
theorem upload_file_missing_noop (st : RunState) (fs : Fs)
    (localPath targetFolderName : String) (contentRoot : Option String)
    (h : fs.mtime localPath = none) :
    upload_file st fs localPath targetFolderName contentRoot = ((localPath, none), st) := by
  unfold upload_file
  rw [h]

/-- Witness for C10 at a concrete state and file system. -/
theorem upload_file_missing_noop_witness :
    upload_file {} { mtime := fun _ => none, title := fun _ => none, ctype := fun _ => none }
      "img.png" FOLDER_IMAGES (some "/course") = (("img.png", none), {}) :=
  upload_file_missing_noop {} _ "img.png" FOLDER_IMAGES (some "/course") rfl

/-! ## Claim C5 -/

/-- C5 (counterexample): a question block with no name attribute gets the
default name `Fråga 1` (Swedish), not `Question 1` as the claim states. -/
theorem default_name_counterexample :
    (parseQuestionBlock "" "What is the capital of France?" 0).question_name =
      AttrVal.str "Fråga 1" ∧
    (parseQuestionBlock "" "What is the capital of France?" 0).question_name ≠
      AttrVal.str "Question 1" := by
  constructor
  · rfl
  · decide

/-- C5 (amended): parsing a question block never fails (every extracted
block yields a question); attributes without a name get the default name
`Fråga \x7bn\x7d` with `n` the one-based block position, and attributes
without a type get the default `multiple_choice_question`. -/
theorem parser_defaults (attrsStr content : String) (index : Nat) :
    ((dget "name" (parseAttributes attrsStr) = none →
      (parseQuestionBlock attrsStr content index).question_name =
        AttrVal.str ("Fråga " ++ toString (index + 1))) ∧
     (dget "type" (parseAttributes attrsStr) = none →
      (parseQuestionBlock attrsStr content index).question_type =
        AttrVal.str "multiple_choice_question")) ∧
    ∀ body : String, (parseQmdQuizQuestions body).length =
      (extractQuestionBlocks body).length := by
  refine ⟨⟨fun h => ?_, fun h => ?_⟩, fun body => ?_⟩
  · rw [(parseQuestionBlock_meta attrsStr content index).1, h]; rfl
  · rw [(parseQuestionBlock_meta attrsStr content index).2.1, h]; rfl
  · simp [parseQmdQuizQuestions]

/-- Witness for C5 (amended) at a concrete block with empty attributes. -/
theorem parser_defaults_witness :
    dget "name" (parseAttributes "") = none ∧
    dget "type" (parseAttributes "") = none ∧
    (parseQuestionBlock "" "What?" 3).question_name = AttrVal.str "Fråga 4" ∧
    (parseQuestionBlock "" "What?" 3).question_type =
      AttrVal.str "multiple_choice_question" :=
  ⟨rfl, rfl, (parser_defaults "" "What?" 3).1.1 rfl, (parser_defaults "" "What?" 3).1.2 rfl⟩

/-! ## Formula generation lemmas -/

theorem range_succ_shift {α : Type} (f : ℕ → α) (n iter : ℕ) :
    (List.range (n + 1)).map (fun j => f (iter + j)) =
      f iter :: (List.range n).map (fun j => f (iter + 1 + j)) := by
  rw [List.range_succ_eq_map, List.map_cons, List.map_map]
  congr 1
  apply List.map_congr_left
  intro a _
  simp only [Function.comp_apply]
  congr 1
  omega

theorem genLoop_ok (evalFn : List (String × ℚ) → EvalRes) (vars : List QVar) (count : ℕ)
    (dist : String) (randFn : ℕ → QVar → ℚ) :
    ∀ (rem iter : ℕ) (acc sols : List FormulaSolution),
      genLoop evalFn vars count dist randFn iter rem acc = .ok sols →
      sols = acc.reverse ++
        (List.range rem).map (fun j => solAt evalFn vars count dist randFn (iter + j)) ∧
      ∀ j < rem, goodIter evalFn vars count dist randFn (iter + j) := by
  intro rem
  induction rem with
  | zero =>
    intro iter acc sols h
    simp only [genLoop] at h
    injection h with h1
    subst h1
    simp
  | succ rem ih =>
    intro iter acc sols h
    simp only [genLoop] at h
    by_cases h1 : (evalFn (inputsAt vars count dist randFn iter)).errors.isEmpty
    · rw [if_pos h1] at h
      by_cases h2 : validVal (evalFn (inputsAt vars count dist randFn iter)).value
      · rw [if_pos h2] at h
        obtain ⟨hs, hg⟩ := ih (iter + 1)
          ({ inputs := inputsAt vars count dist randFn iter,
             output := pyValOutputStr (evalFn (inputsAt vars count dist randFn iter)).value }
            :: acc) sols h
        constructor
        · rw [hs, range_succ_shift (fun k => solAt evalFn vars count dist randFn k) rem iter]
          simp [solAt]
        · intro j hj
          cases j with
          | zero =>
            simp only [Nat.add_zero, goodIter]
            exact ⟨h1, h2⟩
          | succ j =>
            have hh := hg j (by omega)
            have he : iter + 1 + j = iter + (j + 1) := by omega
            rwa [he] at hh
      · rw [if_neg h2] at h
        exact absurd h (by simp)
    · rw [if_neg h1] at h
      exact absurd h (by simp)

theorem genLoop_err (evalFn : List (String × ℚ) → EvalRes) (vars : List QVar) (count : ℕ)
    (dist : String) (randFn : ℕ → QVar → ℚ) :
    ∀ (rem iter : ℕ) (acc : List FormulaSolution),
      (∃ j < rem, ¬ goodIter evalFn vars count dist randFn (iter + j)) →
      ∃ e, genLoop evalFn vars count dist randFn iter rem acc = .error e := by
  intro rem
  induction rem with
  | zero => rintro iter acc ⟨j, hj, _⟩; omega
  | succ rem ih =>
    rintro iter acc ⟨j, hj, hbad⟩
    simp only [genLoop]
    by_cases h1 : (evalFn (inputsAt vars count dist randFn iter)).errors.isEmpty
    · rw [if_pos h1]
      by_cases h2 : validVal (evalFn (inputsAt vars count dist randFn iter)).value
      · rw [if_pos h2]
        apply ih (iter + 1)
        cases j with
        | zero => exact absurd ⟨h1, h2⟩ hbad
        | succ j =>
          refine ⟨j, by omega, ?_⟩
          have he : iter + 1 + j = iter + (j + 1) := by omega
          rwa [he]
      · rw [if_neg h2]
        exact ⟨_, rfl⟩
    · rw [if_neg h1]
      exact ⟨_, rfl⟩

/-! ## Claim C4 -/

/-- Evaluation of the even sample sequence of the claim: Python `round`
rounds half to even, so 2.5 rounds to 2 and 7.5 rounds to 8. -/
theorem evenValsFor_concrete :
    evenValsFor 5 { name := "x", vmin := 0, vmax := 10, prec := 0 } = [0, 2, 5, 8, 10] := by
  have e0 : pyRound 0 = 0 := by norm_num [pyRound]
  have e1 : pyRound (5/2) = 2 := by norm_num [pyRound]
  have e2 : pyRound 5 = 5 := by norm_num [pyRound]
  have e3 : pyRound (15/2) = 8 := by norm_num [pyRound]
  have e4 : pyRound 10 = 10 := by norm_num [pyRound]
  norm_num [evenValsFor, List.range_succ, e0, e1, e2, e3, e4]

/-- C4 (counterexample): with the even strategy, five requested solutions
and one variable ranging 0..10 at precision 0, the sampled values are not
0, 3, 5, 8, 10 as the claim states: Python `round` rounds half to even, so
2.5 rounds to 2, giving 0, 2, 5, 8, 10. -/
theorem even_sampling_counterexample :
    evenValsFor 5 { name := "x", vmin := 0, vmax := 10, prec := 0 } ≠ [0, 3, 5, 8, 10] ∧
    evenValsFor 5 { name := "x", vmin := 0, vmax := 10, prec := 0 } = [0, 2, 5, 8, 10] := by
  refine ⟨?_, evenValsFor_concrete⟩
  rw [evenValsFor_concrete]
  simp

/-- C4 (amended): with strategy `even`, five requested solutions and one
variable 0..10 at precision 0, the five sampled values are evenly spaced
and endpoint-inclusive with halves rounded to even — 0, 2 (2.5 rounded to
even), 5, 8 (7.5 rounded to even), 10 — and the same precomputed sequence
is indexed by iteration number: any successful generation uses value `i` of
that sequence as the input of solution `i`. -/
theorem even_sampling_amended (evalFn : List (String × ℚ) → EvalRes)
    (randFn : ℕ → QVar → ℚ) (sols : List FormulaSolution)
    (h : generateFormulaSolutions evalFn
      [{ name := "x", vmin := 0, vmax := 10, prec := 0 }] 5 "even" randFn = .ok sols) :
    evenValsFor 5 { name := "x", vmin := 0, vmax := 10, prec := 0 } = [0, 2, 5, 8, 10] ∧
    sols.map (fun s => s.inputs) =
      [[("x", 0)], [("x", 2)], [("x", 5)], [("x", 8)], [("x", 10)]] := by
  refine ⟨evenValsFor_concrete, ?_⟩
  obtain ⟨hs, -⟩ := genLoop_ok evalFn _ 5 "even" randFn 5 0 [] sols h
  rw [hs]
  norm_num [solAt, inputsAt, evenTable, dinsert, dget, List.range_succ, evenValsFor_concrete]

/-- Witness for C4 (amended) at a concrete evaluator. -/
theorem even_sampling_amended_witness :
    evenValsFor 5 { name := "x", vmin := 0, vmax := 10, prec := 0 } = [0, 2, 5, 8, 10] ∧
    List.map (fun s => s.inputs)
      ([{ inputs := [("x", 0)], output := "v" }, { inputs := [("x", 2)], output := "v" },
        { inputs := [("x", 5)], output := "v" }, { inputs := [("x", 8)], output := "v" },
        { inputs := [("x", 10)], output := "v" }] : List FormulaSolution) =
      [[("x", 0)], [("x", 2)], [("x", 5)], [("x", 8)], [("x", 10)]] :=
  even_sampling_amended (fun _ => { errors := [], value := .other "v" }) (fun _ _ => 0)
    [{ inputs := [("x", 0)], output := "v" }, { inputs := [("x", 2)], output := "v" },
      { inputs := [("x", 5)], output := "v" }, { inputs := [("x", 8)], output := "v" },
      { inputs := [("x", 10)], output := "v" }]
    (by norm_num [generateFormulaSolutions, genLoop, inputsAt, evenTable, dinsert, dget,
      pyValOutputStr, validVal, evenValsFor_concrete])

/-! ## Claim C8 -/

/-- C8: formula solution generation either returns exactly the requested
number of solutions, each of whose evaluated outputs passed the guard
(no evaluator error, not `None`, not `nan`, not infinite), or raises an
error; and if any iteration's evaluation errors or produces an invalid
value, generation raises instead of returning a solution set. -/
theorem formula_generation_valid (evalFn : List (String × ℚ) → EvalRes) (vars : List QVar)
    (count : ℕ) (dist : String) (randFn : ℕ → QVar → ℚ) :
    (∀ sols, generateFormulaSolutions evalFn vars count dist randFn = .ok sols →
      sols.length = count ∧
      ∀ s ∈ sols, ∃ v : PyVal,
        v ≠ PyVal.none ∧ v ≠ PyVal.nan ∧ v ≠ PyVal.inf ∧
        s.output = pyValOutputStr v ∧ (evalFn s.inputs).errors = [] ∧
        (evalFn s.inputs).value = v) ∧
    ((∃ j < count, ¬ ((evalFn (inputsAt vars count dist randFn j)).errors = [] ∧
        validVal (evalFn (inputsAt vars count dist randFn j)).value = true)) →
      ∃ e, generateFormulaSolutions evalFn vars count dist randFn = .error e) := by
  constructor
  · intro sols h
    obtain ⟨hs, hg⟩ := genLoop_ok evalFn vars count dist randFn count 0 [] sols h
    constructor
    · rw [hs]; simp
    · intro s hsmem
      rw [hs] at hsmem
      simp only [List.reverse_nil, List.nil_append, List.mem_map, List.mem_range] at hsmem
      obtain ⟨j, hj, hsol⟩ := hsmem
      obtain ⟨hge, hgv⟩ := hg j hj
      refine ⟨(evalFn (inputsAt vars count dist randFn (0 + j))).value, ?_, ?_, ?_, ?_, ?_, ?_⟩
      · intro hv; rw [hv] at hgv; simp [validVal] at hgv
      · intro hv; rw [hv] at hgv; simp [validVal] at hgv
      · intro hv; rw [hv] at hgv; simp [validVal] at hgv
      · rw [← hsol]; rfl
      · rw [← hsol]
        simpa [solAt, List.isEmpty_iff] using hge
      · rw [← hsol]; rfl
  · intro hbad
    obtain ⟨j, hj, hb⟩ := hbad
    apply genLoop_err evalFn vars count dist randFn count 0 []
    refine ⟨j, hj, fun hgood => hb ?_⟩
    obtain ⟨hge, hgv⟩ := hgood
    rw [Nat.zero_add] at hge hgv
    exact ⟨List.isEmpty_iff.1 hge, hgv⟩

/-- Witness for C8: a division-by-zero style evaluator error makes
generation raise. -/
theorem formula_generation_valid_witness :
    ∃ e, generateFormulaSolutions (fun _ => { errors := ["ZeroDivisionError"], value := .none })
      [{ name := "x", vmin := 0, vmax := 10, prec := 0 }] 3 "random" (fun _ _ => 1) =
      .error e :=
  (formula_generation_valid (fun _ => { errors := ["ZeroDivisionError"], value := .none })
    [{ name := "x", vmin := 0, vmax := 10, prec := 0 }] 3 "random" (fun _ _ => 1)).2
    ⟨0, by omega, by simp⟩

/-! ## Question-block scanner step lemmas -/

theorem qbScan_cons_open (l : String) (rest : List String) (d : Nat)
    (h4 : 4 ≤ leadingColons (pyStrip l))
    (hne : pyStrip ((pyStrip l).drop (leadingColons (pyStrip l))) ≠ "")
    (hbr : strStarts (pyStrip ((pyStrip l).drop (leadingColons (pyStrip l)))) "\x7b" = true ∨
      strStarts (pyStrip ((pyStrip l).drop (leadingColons (pyStrip l)))) "#" = true) :
    qbScan (l :: rest) d =
      ((l :: (qbScan rest (d + 1)).1), (qbScan rest (d + 1)).2) := by
  simp only [qbScan]
  rw [if_pos h4, if_neg hne, if_pos hbr]

theorem qbScan_cons_close (l : String) (rest : List String) (d : Nat)
    (h4 : 4 ≤ leadingColons (pyStrip l))
    (he : pyStrip ((pyStrip l).drop (leadingColons (pyStrip l))) = "")
    (hd : d ≠ 1) :
    qbScan (l :: rest) d = qbScan rest (d - 1) := by
  simp only [qbScan]
  rw [if_pos h4, if_pos he, if_neg hd]

theorem qbScan_cons_close1 (l : String) (rest : List String)
    (h4 : 4 ≤ leadingColons (pyStrip l))
    (he : pyStrip ((pyStrip l).drop (leadingColons (pyStrip l))) = "") :
    qbScan (l :: rest) 1 = ([], rest) := by
  simp only [qbScan]
  rw [if_pos h4, if_pos he]
  simp

theorem qbScan_cons_plain (l : String) (rest : List String) (d : Nat)
    (h4 : leadingColons (pyStrip l) < 4) :
    qbScan (l :: rest) d = ((l :: (qbScan rest d).1), (qbScan rest d).2) := by
  simp only [qbScan]
  rw [if_neg (by omega)]

theorem qbScan_plain_front (ls tail : List String) (d : Nat)
    (h : ∀ l ∈ ls, leadingColons (pyStrip l) < 4) :
    qbScan (ls ++ tail) d = ((ls ++ (qbScan tail d).1), (qbScan tail d).2) := by
  induction ls with
  | nil => simp
  | cons l rest ih =>
    have hl := h l (List.mem_cons_self _ _)
    have hrest := fun x hx => h x (List.mem_cons_of_mem _ hx)
    rw [List.cons_append, qbScan_cons_plain _ _ _ hl, ih hrest]
    simp

theorem qbOuter_nil (fuel : Nat) : qbOuter fuel [] = [] := by
  cases fuel <;> rfl

/-! ## Claim C2 -/

/-- C2 (counterexample): on the claim's own input — a four-colon question
fence containing a four-colon `.answer` sub-block — the parser returns
exactly one question, but the block content does not contain the inner
fenced block intact: the inner closing fence line is consumed by the depth
tracker and dropped from the content. -/
theorem nested_fence_counterexample :
    extractQuestionBlocks
      "::::\x7b.question\x7d\x0a::::\x7b.answer\x7d\x0aThe answer\x0a::::\x0aQuestion text?\x0a::::" =
      [("", "::::\x7b.answer\x7d\x0aThe answer\x0aQuestion text?")] ∧
    ¬ List.IsInfix "::::\x7b.answer\x7d\x0aThe answer\x0a::::".toList
      "::::\x7b.answer\x7d\x0aThe answer\x0aQuestion text?".toList := by
  constructor <;> decide

/-- C2 (amended): for a document consisting of a four-colon question fence,
a four-colon `.answer` sub-fence, arbitrary fence-free body lines, the inner
closing fence, arbitrary fence-free trailing lines and the outer closing
fence, the parser returns exactly one question — the question block is
closed only at the outer closing fence that returns the nesting depth to
zero, never at the inner closing fence — and the block content keeps the
inner opening fence and all body lines in order, while the inner closing
fence line itself is consumed by the depth tracker and omitted. -/
theorem nested_fence_amended (body : String) (mids rest1 : List String)
    (hsplit : splitLines body = "::::\x7b.question\x7d" :: "::::\x7b.answer\x7d" ::
      (mids ++ "::::" :: (rest1 ++ ["::::"])))
    (hm : ∀ l ∈ mids, leadingColons (pyStrip l) < 4)
    (hr : ∀ l ∈ rest1, leadingColons (pyStrip l) < 4) :
    extractQuestionBlocks body =
      [("", stripIndent (String.intercalate "\x0a"
        ("::::\x7b.answer\x7d" :: (mids ++ rest1))))] := by
  have hscan : qbScan ("::::\x7b.answer\x7d" :: (mids ++ "::::" :: (rest1 ++ ["::::"]))) 1 =
      (("::::\x7b.answer\x7d" :: (mids ++ rest1)), []) := by
    rw [qbScan_cons_open _ _ _ (by decide) (by decide) (Or.inl (by decide))]
    rw [qbScan_plain_front _ _ _ hm]
    rw [qbScan_cons_close _ _ _ (by decide) (by decide) (by decide)]
    rw [qbScan_plain_front _ _ _ hr]
    rw [qbScan_cons_close1 _ _ (by decide) (by decide)]
    simp
  unfold extractQuestionBlocks
  rw [hsplit]
  simp only [List.length_cons]
  rw [show ∀ n, qbOuter (n + 1)
      ("::::\x7b.question\x7d" :: "::::\x7b.answer\x7d" ::
        (mids ++ "::::" :: (rest1 ++ ["::::"]))) =
      (match matchOpenQuestion "::::\x7b.question\x7d" with
       | some attrs =>
         (attrs, stripIndent (String.intercalate "\x0a"
           (qbScan ("::::\x7b.answer\x7d" :: (mids ++ "::::" :: (rest1 ++ ["::::"]))) 1).1)) ::
           qbOuter n
             (qbScan ("::::\x7b.answer\x7d" :: (mids ++ "::::" :: (rest1 ++ ["::::"]))) 1).2
       | none => qbOuter n
           ("::::\x7b.answer\x7d" :: (mids ++ "::::" :: (rest1 ++ ["::::"])))) from
      fun n => rfl]
  rw [show matchOpenQuestion "::::\x7b.question\x7d" = some "" from rfl]
  rw [hscan]
  simp [qbOuter_nil]

/-- Witness for C2 (amended) on the claim's concrete document. -/
theorem nested_fence_amended_witness :
    extractQuestionBlocks
      "::::\x7b.question\x7d\x0a::::\x7b.answer\x7d\x0aThe answer\x0a::::\x0aQuestion text?\x0a::::" =
      [("", stripIndent (String.intercalate "\x0a"
        ("::::\x7b.answer\x7d" :: (["The answer"] ++ ["Question text?"]))))] :=
  nested_fence_amended
    "::::\x7b.question\x7d\x0a::::\x7b.answer\x7d\x0aThe answer\x0a::::\x0aQuestion text?\x0a::::"
    ["The answer"] ["Question text?"] (by decide) (by decide) (by decide)

/-! ## Claim C6 -/

theorem parseChecklistAnswers_answers_indep (content : String) (q q2 : Question) :
    (parseChecklistAnswers content q).answers = (parseChecklistAnswers content q2).answers := by
  unfold parseChecklistAnswers
  rcases h : List.findIdx? (fun l => (checkItemSplit l).isSome) (splitLines content) with _ | i <;>
    simp [h]

/-- C6: a block containing a rich `.answer` fence anywhere parses its
answers from the rich fenced blocks even when checklist-like lines occur in
the body; a block with no `.answer` fence falls back to checklist parsing.
On the body `- [x] Paris / - [ ] London` this yields exactly two answers —
Paris correct (weight 100), London incorrect (weight 0) — and an empty
question text. -/
theorem answer_style_exclusivity :
    (∀ attrsStr content index, hasDivAnswers content = true →
      (parseQuestionBlock attrsStr content index).answers =
        (extractInnerDivs content "\x7b.answer").map divAnswerOfBlock) ∧
    (∀ attrsStr content index, hasDivAnswers content = false →
      (parseQuestionBlock attrsStr content index).answers =
        (parseChecklistAnswers content
          { question_name := .str "", question_type := .str "",
            points_possible := .int 0 }).answers) ∧
    (parseQuestionBlock "" "- [x] Paris\x0a- [ ] London" 0).answers =
      [{ answer_text := some "Paris", answer_weight := 100 },
       { answer_text := some "London", answer_weight := 0 }] ∧
    (parseQuestionBlock "" "- [x] Paris\x0a- [ ] London" 0).question_text = "" ∧
    (parseQuestionBlock ""
      "Which?\x0a- [x] not an answer\x0a::: \x7b.answer correct=true\x7d\x0aA\x0a:::" 0).answers =
      [{ answer_html := some "A", answer_weight := 100 }] := by
  refine ⟨fun attrsStr content index h => ?_, fun attrsStr content index h => ?_,
    by decide, by decide, by decide⟩
  · unfold parseQuestionBlock
    rw [h]
    simp only [if_true]
    rw [(parseCommentDivs_meta content _).2.2.2.2]
    unfold parseDivAnswers
    simp
  · unfold parseQuestionBlock
    rw [h]
    simp only [Bool.false_eq_true, if_false]
    rw [(parseCommentDivs_meta content _).2.2.2.2]
    exact parseChecklistAnswers_answers_indep content _ _

/-- Witness for C6 at concrete blocks of each style. -/
theorem answer_style_exclusivity_witness :
    hasDivAnswers "::: \x7b.answer correct=true\x7d\x0aA\x0a:::" = true ∧
    (parseQuestionBlock "" "::: \x7b.answer correct=true\x7d\x0aA\x0a:::" 0).answers =
      (extractInnerDivs "::: \x7b.answer correct=true\x7d\x0aA\x0a:::" "\x7b.answer").map
        divAnswerOfBlock ∧
    hasDivAnswers "- [x] Paris\x0a- [ ] London" = false ∧
    (parseQuestionBlock "" "- [x] Paris\x0a- [ ] London" 0).answers =
      (parseChecklistAnswers "- [x] Paris\x0a- [ ] London"
        { question_name := .str "", question_type := .str "",
          points_possible := .int 0 }).answers :=
  ⟨by decide,
   answer_style_exclusivity.1 "" "::: \x7b.answer correct=true\x7d\x0aA\x0a:::" 0 (by decide),
   by decide,
   answer_style_exclusivity.2.1 "" "- [x] Paris\x0a- [ ] London" 0 (by decide)⟩

/-! ## Claim C9 -/

/-- C9 (counterexample): resolving a missing cross-reference of type
`assignment` creates a stub with only a name and the unpublished flag — the
created object carries no placeholder body, contradicting the claim that
every stub is created with an inert placeholder body. -/
theorem jit_stub_counterexample :
    (resolve_cross_link {}
      { mtime := fun p => if p = "/c/a.qmd" then some 1 else none,
        title := fun p => if p = "/c/a.qmd" then some "My Assignment" else none,
        ctype := fun p => if p = "/c/a.qmd" then some "assignment" else none }
      "a.qmd" "/c").2.assignments =
      [{ aid := 1, name := "My Assignment", body := none, published := false }] ∧
    ((resolve_cross_link {}
      { mtime := fun p => if p = "/c/a.qmd" then some 1 else none,
        title := fun p => if p = "/c/a.qmd" then some "My Assignment" else none,
        ctype := fun p => if p = "/c/a.qmd" then some "assignment" else none }
      "a.qmd" "/c").2.assignments.map (fun a => a.body)) = [none] := by
  constructor <;> decide

/-- C9 (amended): for a local cross-reference whose target exists locally
and resolves to type page, assignment, or quiz, if no remote object of that
type has an exactly matching title, resolution creates exactly one minimal
unpublished placeholder — a page stub with the title and the inert
placeholder body, an assignment stub with only the name, a quiz stub with
only the title and `quiz_type = assignment`; neither assignment nor quiz
stubs carry a body — and returns its address; resolving the same target a
second time finds the stub by exact title match, creates nothing further,
and returns the same address with the state unchanged. -/
theorem jit_stub_amended (st : RunState) (fs : Fs) (linkTarget basePath : String)
    (absTarget ttl : String)
    (habs : absTarget =
      (if isAbsPath linkTarget then linkTarget else normJoin basePath linkTarget))
    (hex : (fs.mtime absTarget).isSome = true)
    (hqmd : strLower (splitextExt (pathBasename absTarget)) = ".qmd")
    (httl : ttl = (fs.title absTarget).getD (splitextStem (pathBasename absTarget))) :
    (fs.ctype absTarget = some "page" → (∀ p ∈ st.pages, p.title ≠ ttl) →
      resolve_cross_link st fs linkTarget basePath =
        (pageHtmlUrl st.nextId,
         { st with
            pages := st.pages ++
              [{ pid := st.nextId, title := ttl,
                 body := some "<i>Placeholder for future sync.</i>", published := false }],
            nextId := st.nextId + 1, writes := st.writes + 1 }) ∧
      resolve_cross_link (resolve_cross_link st fs linkTarget basePath).2 fs
          linkTarget basePath =
        ((resolve_cross_link st fs linkTarget basePath).1,
         (resolve_cross_link st fs linkTarget basePath).2)) ∧
    (fs.ctype absTarget = some "assignment" → (∀ a ∈ st.assignments, a.name ≠ ttl) →
      resolve_cross_link st fs linkTarget basePath =
        (assignmentHtmlUrl st.nextId,
         { st with
            assignments := st.assignments ++
              [{ aid := st.nextId, name := ttl, body := none, published := false }],
            nextId := st.nextId + 1, writes := st.writes + 1 }) ∧
      resolve_cross_link (resolve_cross_link st fs linkTarget basePath).2 fs
          linkTarget basePath =
        ((resolve_cross_link st fs linkTarget basePath).1,
         (resolve_cross_link st fs linkTarget basePath).2)) ∧
    (fs.ctype absTarget = some "quiz" → (∀ q ∈ st.quizzes, q.title ≠ ttl) →
      resolve_cross_link st fs linkTarget basePath =
        (quizHtmlUrl st.nextId,
         { st with
            quizzes := st.quizzes ++
              [{ qid := st.nextId, title := ttl, published := false,
                 quizType := some "assignment", description := none, questions := [] }],
            nextId := st.nextId + 1, writes := st.writes + 1 }) ∧
      resolve_cross_link (resolve_cross_link st fs linkTarget basePath).2 fs
          linkTarget basePath =
        ((resolve_cross_link st fs linkTarget basePath).1,
         (resolve_cross_link st fs linkTarget basePath).2)) := by
  obtain ⟨m, hm⟩ := Option.isSome_iff_exists.1 hex
  have hres : ∀ st2 : RunState, resolve_cross_link st2 fs linkTarget basePath =
      resolveByType st2 ttl ((fs.ctype absTarget).getD "page") linkTarget := by
    intro st2
    unfold resolve_cross_link
    rw [← habs]
    dsimp only
    rw [hm]
    dsimp only
    rw [hqmd, ← httl]
    rw [if_pos rfl]
  refine ⟨fun hty hno => ?_, fun hty hno => ?_, fun hty hno => ?_⟩
  · have hfind : st.pages.find? (fun p => p.title = ttl) = none :=
      List.find?_eq_none.2 (fun p hp => by simpa using hno p hp)
    have h1 : resolve_cross_link st fs linkTarget basePath =
        (pageHtmlUrl st.nextId,
         { st with
            pages := st.pages ++
              [{ pid := st.nextId, title := ttl,
                 body := some "<i>Placeholder for future sync.</i>", published := false }],
            nextId := st.nextId + 1, writes := st.writes + 1 }) := by
      rw [hres st, hty]
      simp only [Option.getD_some]
      unfold resolveByType
      rw [if_pos rfl]
      rw [hfind]
    refine ⟨h1, ?_⟩
    rw [h1]
    rw [hres _]
    rw [hty]
    simp only [Option.getD_some]
    unfold resolveByType
    rw [if_pos rfl]
    simp only [List.find?_append, hfind, Option.none_or]
    rw [List.find?_cons_of_pos _ (by simp)]
  · have hfind : st.assignments.find? (fun a => a.name = ttl) = none :=
      List.find?_eq_none.2 (fun a ha => by simpa using hno a ha)
    have h1 : resolve_cross_link st fs linkTarget basePath =
        (assignmentHtmlUrl st.nextId,
         { st with
            assignments := st.assignments ++
              [{ aid := st.nextId, name := ttl, body := none, published := false }],
            nextId := st.nextId + 1, writes := st.writes + 1 }) := by
      rw [hres st, hty]
      simp only [Option.getD_some]
      unfold resolveByType
      rw [if_neg (by decide), if_pos rfl]
      rw [hfind]
    refine ⟨h1, ?_⟩
    rw [h1]
    rw [hres _]
    rw [hty]
    simp only [Option.getD_some]
    unfold resolveByType
    rw [if_neg (by decide), if_pos rfl]
    simp only [List.find?_append, hfind, Option.none_or]
    rw [List.find?_cons_of_pos _ (by simp)]
  · have hfind : st.quizzes.find? (fun q => q.title = ttl) = none :=
      List.find?_eq_none.2 (fun q hq => by simpa using hno q hq)
    have h1 : resolve_cross_link st fs linkTarget basePath =
        (quizHtmlUrl st.nextId,
         { st with
            quizzes := st.quizzes ++
              [{ qid := st.nextId, title := ttl, published := false,
                 quizType := some "assignment", description := none, questions := [] }],
            nextId := st.nextId + 1, writes := st.writes + 1 }) := by
      rw [hres st, hty]
      simp only [Option.getD_some]
      unfold resolveByType
      rw [if_neg (by decide), if_neg (by decide), if_pos rfl]
      rw [hfind]
    refine ⟨h1, ?_⟩
    rw [h1]
    rw [hres _]
    rw [hty]
    simp only [Option.getD_some]
    unfold resolveByType
    rw [if_neg (by decide), if_neg (by decide), if_pos rfl]
    simp only [List.find?_append, hfind, Option.none_or]
    rw [List.find?_cons_of_pos _ (by simp)]

/-- Witness for C9 (amended): stub-once-then-find for a concrete quiz
target. -/
theorem jit_stub_amended_witness :
    (("/c/q.qmd" : String) =
        (if isAbsPath "q.qmd" then "q.qmd" else normJoin "/c" "q.qmd") ∧
     (wJitFs.mtime "/c/q.qmd").isSome = true ∧
     strLower (splitextExt (pathBasename "/c/q.qmd")) = ".qmd" ∧
     ("Quiz One" : String) =
        (wJitFs.title "/c/q.qmd").getD (splitextStem (pathBasename "/c/q.qmd"))) ∧
    ((wJitFs.ctype "/c/q.qmd" = some "page" →
        (∀ p ∈ ({} : RunState).pages, p.title ≠ "Quiz One") →
      resolve_cross_link {} wJitFs "q.qmd" "/c" =
        (pageHtmlUrl ({} : RunState).nextId,
         { ({} : RunState) with
            pages := ({} : RunState).pages ++
              [{ pid := ({} : RunState).nextId, title := "Quiz One",
                 body := some "<i>Placeholder for future sync.</i>", published := false }],
            nextId := ({} : RunState).nextId + 1, writes := ({} : RunState).writes + 1 }) ∧
      resolve_cross_link (resolve_cross_link {} wJitFs "q.qmd" "/c").2 wJitFs
          "q.qmd" "/c" =
        ((resolve_cross_link {} wJitFs "q.qmd" "/c").1,
         (resolve_cross_link {} wJitFs "q.qmd" "/c").2)) ∧
     (wJitFs.ctype "/c/q.qmd" = some "assignment" →
        (∀ a ∈ ({} : RunState).assignments, a.name ≠ "Quiz One") →
      resolve_cross_link {} wJitFs "q.qmd" "/c" =
        (assignmentHtmlUrl ({} : RunState).nextId,
         { ({} : RunState) with
            assignments := ({} : RunState).assignments ++
              [{ aid := ({} : RunState).nextId, name := "Quiz One", body := none,
                 published := false }],
            nextId := ({} : RunState).nextId + 1, writes := ({} : RunState).writes + 1 }) ∧
      resolve_cross_link (resolve_cross_link {} wJitFs "q.qmd" "/c").2 wJitFs
          "q.qmd" "/c" =
        ((resolve_cross_link {} wJitFs "q.qmd" "/c").1,
         (resolve_cross_link {} wJitFs "q.qmd" "/c").2)) ∧
     (wJitFs.ctype "/c/q.qmd" = some "quiz" →
        (∀ q ∈ ({} : RunState).quizzes, q.title ≠ "Quiz One") →
      resolve_cross_link {} wJitFs "q.qmd" "/c" =
        (quizHtmlUrl ({} : RunState).nextId,
         { ({} : RunState) with
            quizzes := ({} : RunState).quizzes ++
              [{ qid := ({} : RunState).nextId, title := "Quiz One", published := false,
                 quizType := some "assignment", description := none, questions := [] }],
            nextId := ({} : RunState).nextId + 1, writes := ({} : RunState).writes + 1 }) ∧
      resolve_cross_link (resolve_cross_link {} wJitFs "q.qmd" "/c").2 wJitFs
          "q.qmd" "/c" =
        ((resolve_cross_link {} wJitFs "q.qmd" "/c").1,
         (resolve_cross_link {} wJitFs "q.qmd" "/c").2))) :=
  ⟨⟨by decide, by decide, by decide, by decide⟩,
   jit_stub_amended {} wJitFs "q.qmd" "/c" "/c/q.qmd" "Quiz One" (by decide) (by decide)
     (by decide) (by decide)⟩

/-! ## Folder cache lemmas (for the orphan sweep) -/

theorem dget_foldl_dinsert (folders : List RFolder) (c : List (String × Nat)) (key : String) :
    dget key (folders.foldl (fun c f => dinsert (strLower f.name) f.fid c) c) =
      (match folders.reverse.find? (fun f => strLower f.name = key) with
       | some f => some f.fid
       | none => dget key c) := by
  induction folders generalizing c with
  | nil => simp
  | cons f rest ih =>
    simp only [List.foldl_cons, List.reverse_cons, List.find?_append]
    rw [ih]
    cases hfind : rest.reverse.find? (fun g => decide (strLower g.name = key)) with
    | some g => simp [hfind]
    | none =>
      simp only [hfind, Option.none_or]
      by_cases hf : strLower f.name = key
      · rw [List.find?_cons_of_pos _ (by simpa using hf)]
        rw [← hf, dget_dinsert_self]
      · rw [List.find?_cons_of_neg _ (by simpa using hf)]
        rw [dget_dinsert_ne _ _ _ _ (fun hh => hf hh.symm)]
        simp

theorem mem_foldl_dinsert (folders : List RFolder) (c : List (String × Nat))
    (p : String × Nat) (h : p ∈ folders.foldl (fun c f => dinsert (strLower f.name) f.fid c) c) :
    p ∈ c ∨ ∃ f ∈ folders, p = (strLower f.name, f.fid) := by
  induction folders generalizing c with
  | nil => exact Or.inl h
  | cons f rest ih =>
    simp only [List.foldl_cons] at h
    rcases ih _ h with h1 | h1
    · rcases mem_dinsert _ _ _ _ h1 with h2 | h2
      · exact Or.inr ⟨f, List.mem_cons_self _ _, h2⟩
      · exact Or.inl h2
    · obtain ⟨g, hg, hp⟩ := h1
      exact Or.inr ⟨g, List.mem_cons_of_mem _ hg, hp⟩

theorem dget_mem {α : Type} (k : String) (v : α) (m : List (String × α))
    (h : dget k m = some v) : (k, v) ∈ m := by
  unfold dget at h
  cases hf : m.find? (fun p => p.1 = k) with
  | none => rw [hf] at h; simp at h
  | some p =>
    rw [hf] at h
    have hv : p.2 = v := by simpa using h
    have hmem := List.mem_of_find?_eq_some hf
    have hpk : p.1 = k := by simpa using List.find?_some hf
    have hp : p = (k, v) := by
      cases p
      simp only at hpk hv
      simp [hpk, hv]
    rwa [hp] at hmem

/-- Resolution of an existing folder by `get_or_create_folder`: under cache
consistency and unique lowercased names, the call returns the ID of the
folder whose lowercased name matches, changes at most the cache, and keeps
the cache consistent. -/
theorem gocf_existing (st : RunState) (nm : String) (f : RFolder)
    (hcw : cacheConsistent st)
    (hnod : (st.folders.map (fun g => strLower g.name)).Nodup)
    (hf : f ∈ st.folders) (hname : strLower f.name = strLower nm) :
    (get_or_create_folder st nm).1 = f.fid ∧
    (get_or_create_folder st nm).2.folders = st.folders ∧
    (get_or_create_folder st nm).2.activeAssets = st.activeAssets ∧
    (get_or_create_folder st nm).2.writes = st.writes ∧
    (get_or_create_folder st nm).2.nextId = st.nextId ∧
    cacheConsistent (get_or_create_folder st nm).2 := by
  have hinj := List.inj_on_of_nodup_map hnod
  unfold get_or_create_folder
  dsimp only
  cases hdg : dget (strLower nm) st.folderCache with
  | some fid =>
    obtain ⟨g, hg, hgid, hgname⟩ := hcw (strLower nm, fid) (dget_mem _ _ _ hdg)
    have hgf : g = f := hinj hg hf (by rw [hgname, hname])
    subst hgf
    dsimp only
    exact ⟨hgid.symm, rfl, rfl, rfl, rfl, hcw⟩
  | none =>
    have hfind : ∃ g, st.folders.reverse.find? (fun g => strLower g.name = strLower nm) =
        some g := by
      cases hr : st.folders.reverse.find? (fun g => decide (strLower g.name = strLower nm)) with
      | some g => exact ⟨g, rfl⟩
      | none =>
        exact absurd (by simpa using hname)
          (by simpa using List.find?_eq_none.1 hr f (List.mem_reverse.2 hf))
    obtain ⟨g, hg⟩ := hfind
    have hgmem : g ∈ st.folders := List.mem_reverse.1 (List.mem_of_find?_eq_some hg)
    have hgname : strLower g.name = strLower nm := by simpa using List.find?_some hg
    have hgf : g = f := hinj hgmem hf (by rw [hgname, hname])
    subst hgf
    rw [dget_foldl_dinsert, hg]
    dsimp only
    refine ⟨rfl, rfl, rfl, rfl, rfl, ?_⟩
    intro p hp
    rcases mem_foldl_dinsert _ _ _ hp with h1 | h1
    · exact hcw p h1
    · obtain ⟨q, hq, hpq⟩ := h1
      exact ⟨q, hq, by rw [hpq], by rw [hpq]⟩

theorem pruneFolder_spec (st : RunState) (nm : String) (f : RFolder)
    (hcw : cacheConsistent st)
    (hnod : (st.folders.map (fun g => strLower g.name)).Nodup)
    (hfid : (st.folders.map (fun g => g.fid)).Nodup)
    (hf : f ∈ st.folders) (hname : strLower f.name = strLower nm) :
    (pruneFolder st nm).folders = st.folders.map (fun g =>
      if strLower g.name = strLower nm then
        { g with files := g.files.filter (fun x => x.id ∈ st.activeAssets) }
      else g) ∧
    (pruneFolder st nm).activeAssets = st.activeAssets ∧
    (pruneFolder st nm).writes = st.writes ∧
    (pruneFolder st nm).nextId = st.nextId ∧
    cacheConsistent (pruneFolder st nm) := by
  have hinj := List.inj_on_of_nodup_map hnod
  have hinjf := List.inj_on_of_nodup_map hfid
  obtain ⟨hid, hfold, hact, hw, hnx, hcw2⟩ := gocf_existing st nm f hcw hnod hf hname
  have hfolders : (pruneFolder st nm).folders = st.folders.map (fun g =>
      if strLower g.name = strLower nm then
        { g with files := g.files.filter (fun x => x.id ∈ st.activeAssets) }
      else g) := by
    unfold pruneFolder
    dsimp only
    rw [hfold, hid, hact]
    apply List.map_congr_left
    intro g hg
    by_cases hgn : strLower g.name = strLower nm
    · have hgf : g = f := hinj hg hf (by rw [hgn, hname])
      rw [if_pos (by rw [hgf]), if_pos hgn]
    · rw [if_neg hgn, if_neg (fun hfidg : g.fid = f.fid => hgn (by
        have : g = f := hinjf hg hf hfidg
        rw [this, hname]))]
  refine ⟨hfolders, ?_, ?_, ?_, ?_⟩
  · unfold pruneFolder; dsimp only; exact hact
  · unfold pruneFolder; dsimp only; exact hw
  · unfold pruneFolder; dsimp only; exact hnx
  · intro p hp
    have hp2 : p ∈ (get_or_create_folder st nm).2.folderCache := by
      unfold pruneFolder at hp
      exact hp
    obtain ⟨g, hg, hgid, hgname⟩ := hcw2 p hp2
    rw [hfold] at hg
    have hmem2 : (if strLower g.name = strLower nm then
        { g with files := g.files.filter (fun x => x.id ∈ st.activeAssets) }
      else g) ∈ (pruneFolder st nm).folders := by
      rw [hfolders]
      exact List.mem_map_of_mem _ hg
    by_cases hgn : strLower g.name = strLower nm
    · rw [if_pos hgn] at hmem2
      exact ⟨_, hmem2, hgid, hgname⟩
    · rw [if_neg hgn] at hmem2
      exact ⟨g, hmem2, hgid, hgname⟩

theorem mem_addActive_self (i : Nat) (s : List Nat) : i ∈ addActive i s := by
  unfold addActive
  by_cases h : i ∈ s
  · rwa [if_pos h]
  · rw [if_neg h]; exact List.mem_cons_self _ _

theorem mem_addActive_mono (i j : Nat) (s : List Nat) (h : j ∈ s) : j ∈ addActive i s := by
  unfold addActive
  by_cases hi : i ∈ s
  · rwa [if_pos hi]
  · rw [if_neg hi]; exact List.mem_cons_of_mem _ h

theorem gocf_active (st : RunState) (nm : String) :
    (get_or_create_folder st nm).2.activeAssets = st.activeAssets := by
  unfold get_or_create_folder
  dsimp only
  cases dget (strLower nm) st.folderCache with
  | some fid => rfl
  | none =>
    cases dget (strLower nm)
        (st.folders.foldl (fun c f => dinsert (strLower f.name) f.fid c) st.folderCache) with
    | some fid => rfl
    | none => rfl

/-- Upload marks every non-null returned asset ID active, in both the
cached-reuse branch and the fresh-upload branch. -/
theorem upload_file_marks_active (st : RunState) (fs : Fs) (p folder : String)
    (cr : Option String) (u : String) (i : Nat)
    (h : (upload_file st fs p folder cr).1 = (u, some i)) (hi : i ≠ 0) :
    i ∈ (upload_file st fs p folder cr).2.activeAssets := by
  unfold upload_file at h ⊢
  cases hm : fs.mtime p with
  | none =>
    rw [hm] at h
    dsimp only at h
    exact absurd (congrArg (fun q => q.2) h) (by simp)
  | some m =>
    rw [hm] at h
    dsimp only at h ⊢
    set cacheRec := (match cr with
      | some root =>
        match dget (relpath p root) st.syncMap with
        | some (.record r) =>
          if r.mtime = some m ∧ truthyUrl r.url then some r else none
        | _ => none
      | none => none) with hcr
    clear_value cacheRec
    cases cacheRec with
    | some r =>
      dsimp only at h ⊢
      cases hrid : r.id with
      | none =>
        rw [hrid] at h
        exact absurd (congrArg (fun q => q.2) h) (by simp)
      | some j =>
        rw [hrid] at h
        have hj : j = i := by
          have h2 := congrArg (fun q => q.2) h
          simpa using h2
        subst hj
        dsimp only
        rw [if_pos hi]
        exact mem_addActive_self _ _
    | none =>
      dsimp only at h ⊢
      have hji : (get_or_create_folder st folder).2.nextId = i := by
        have h2 := congrArg (fun q => q.2) h
        simpa using h2
      rw [hji, if_pos hi]
      exact mem_addActive_self _ _

/-- Upload never removes an ID from the active set. -/
theorem upload_file_active_mono (st : RunState) (fs : Fs) (p folder : String)
    (cr : Option String) (j : Nat) (h : j ∈ st.activeAssets) :
    j ∈ (upload_file st fs p folder cr).2.activeAssets := by
  unfold upload_file
  cases hm : fs.mtime p with
  | none => exact h
  | some m =>
    dsimp only
    set cacheRec := (match cr with
      | some root =>
        match dget (relpath p root) st.syncMap with
        | some (.record r) =>
          if r.mtime = some m ∧ truthyUrl r.url then some r else none
        | _ => none
      | none => none) with hcr
    clear_value cacheRec
    cases cacheRec with
    | some r =>
      dsimp only
      cases r.id with
      | none => exact h
      | some i =>
        dsimp only
        by_cases hi : i ≠ 0
        · rw [if_pos hi]; exact mem_addActive_mono _ _ _ h
        · rw [if_neg hi]; exact h
    | none =>
      dsimp only
      by_cases hi : (get_or_create_folder st folder).2.nextId ≠ 0
      · rw [if_pos hi]
        exact mem_addActive_mono _ _ _ (by rw [gocf_active]; exact h)
      · rw [if_neg hi]
        rw [gocf_active]
        exact h

/-- C3: Mark-and-sweep correctness of the orphan sweep.  Under consistency
of the folder cache, uniqueness of lowercased folder names and of folder
IDs, and existence of the two managed namespace folders, the sweep (i)
rewrites exactly the two managed folders, keeping in each precisely the
files whose ID is in the active set and deleting the rest, and leaves every
other folder untouched; (ii) does not change the active set; (iii) every
non-null asset ID returned by `upload_file` (cached branch or fresh-upload
branch alike) is in the active set of the state it returns; (iv) upload
never removes an ID from the active set; and (v) a file whose ID is active
survives the sweep in its folder. -/
theorem orphan_sweep_correct (st : RunState) (fI fF : RFolder)
    (hcw : cacheConsistent st)
    (hnod : (st.folders.map (fun g => strLower g.name)).Nodup)
    (hfid : (st.folders.map (fun g => g.fid)).Nodup)
    (hfI : fI ∈ st.folders) (hnI : strLower fI.name = FOLDER_IMAGES)
    (hfF : fF ∈ st.folders) (hnF : strLower fF.name = FOLDER_FILES) :
    (prune_orphaned_assets st).folders = st.folders.map (fun g =>
      if strLower g.name = FOLDER_IMAGES ∨ strLower g.name = FOLDER_FILES then
        { g with files := g.files.filter (fun x => x.id ∈ st.activeAssets) }
      else g) ∧
    (prune_orphaned_assets st).activeAssets = st.activeAssets ∧
    (∀ fs p folder cr u i, (upload_file st fs p folder cr).1 = (u, some i) → i ≠ 0 →
        i ∈ (upload_file st fs p folder cr).2.activeAssets) ∧
    (∀ fs p folder cr j, j ∈ st.activeAssets →
        j ∈ (upload_file st fs p folder cr).2.activeAssets) ∧
    (∀ i ∈ st.activeAssets, ∀ g ∈ st.folders, ∀ x ∈ g.files, x.id = i →
        ∃ g' ∈ (prune_orphaned_assets st).folders, x ∈ g'.files) := by
  have hsI : strLower FOLDER_IMAGES = FOLDER_IMAGES := by decide
  have hsF : strLower FOLDER_FILES = FOLDER_FILES := by decide
  have hne : FOLDER_FILES ≠ FOLDER_IMAGES := by decide
  obtain ⟨h1f, h1a, h1w, h1n, h1c⟩ :=
    pruneFolder_spec st FOLDER_IMAGES fI hcw hnod hfid hfI (by rw [hnI, hsI])
  set st1 := pruneFolder st FOLDER_IMAGES with hst1
  have hmapname : st1.folders.map (fun g => strLower g.name) =
      st.folders.map (fun g => strLower g.name) := by
    rw [h1f, List.map_map]
    apply List.map_congr_left
    intro g _
    simp only [Function.comp]
    by_cases h : strLower g.name = strLower FOLDER_IMAGES
    · rw [if_pos h]
    · rw [if_neg h]
  have hmapfid : st1.folders.map (fun g => g.fid) = st.folders.map (fun g => g.fid) := by
    rw [h1f, List.map_map]
    apply List.map_congr_left
    intro g _
    simp only [Function.comp]
    by_cases h : strLower g.name = strLower FOLDER_IMAGES
    · rw [if_pos h]
    · rw [if_neg h]
  have hnod1 : (st1.folders.map (fun g => strLower g.name)).Nodup := by
    rw [hmapname]; exact hnod
  have hfid1 : (st1.folders.map (fun g => g.fid)).Nodup := by
    rw [hmapfid]; exact hfid
  have hfF1mem : fF ∈ st1.folders := by
    rw [h1f]
    have hmem := List.mem_map_of_mem (fun g =>
      if strLower g.name = strLower FOLDER_IMAGES then
        { g with files := g.files.filter (fun x => x.id ∈ st.activeAssets) }
      else g) hfF
    dsimp only at hmem
    rwa [if_neg (by rw [hnF, hsI]; exact hne)] at hmem
  obtain ⟨h2f, h2a, h2w, h2n, h2c⟩ :=
    pruneFolder_spec st1 FOLDER_FILES fF h1c hnod1 hfid1 hfF1mem (by rw [hnF, hsF])
  have hactive : (prune_orphaned_assets st).activeAssets = st.activeAssets := by
    show (pruneFolder st1 FOLDER_FILES).activeAssets = st.activeAssets
    rw [h2a, h1a]
  have hfmain : (prune_orphaned_assets st).folders = st.folders.map (fun g =>
      if strLower g.name = FOLDER_IMAGES ∨ strLower g.name = FOLDER_FILES then
        { g with files := g.files.filter (fun x => x.id ∈ st.activeAssets) }
      else g) := by
    show (pruneFolder st1 FOLDER_FILES).folders = _
    rw [h2f, h1a, h1f, List.map_map]
    apply List.map_congr_left
    intro g _
    simp only [Function.comp]
    by_cases hI : strLower g.name = strLower FOLDER_IMAGES
    · rw [if_pos hI]
      rw [if_neg (show ¬ strLower ({ g with
          files := g.files.filter (fun x => x.id ∈ st.activeAssets) } : RFolder).name =
          strLower FOLDER_FILES from by
        show ¬ strLower g.name = strLower FOLDER_FILES
        rw [hI, hsI, hsF]
        exact fun hc => hne hc.symm)]
      rw [if_pos (Or.inl (by rw [hI, hsI]))]
    · by_cases hF : strLower g.name = strLower FOLDER_FILES
      · rw [if_neg hI, if_pos hF, if_pos (Or.inr (by rw [hF, hsF]))]
      · rw [if_neg hI, if_neg hF,
          if_neg (fun hc => hc.elim
            (fun h => hI (by rw [hsI]; exact h))
            (fun h => hF (by rw [hsF]; exact h)))]
  refine ⟨hfmain, hactive, ?_, ?_, ?_⟩
  · intro fs p folder cr u i h hi
    exact upload_file_marks_active st fs p folder cr u i h hi
  · intro fs p folder cr j hj
    exact upload_file_active_mono st fs p folder cr j hj
  · intro i hi g hg x hx hxi
    refine ⟨(fun g =>
      if strLower g.name = FOLDER_IMAGES ∨ strLower g.name = FOLDER_FILES then
        { g with files := g.files.filter (fun x => x.id ∈ st.activeAssets) }
      else g) g, ?_, ?_⟩
    · rw [hfmain]
      exact List.mem_map_of_mem _ hg
    · dsimp only
      by_cases hc : strLower g.name = FOLDER_IMAGES ∨ strLower g.name = FOLDER_FILES
      · rw [if_pos hc]
        exact List.mem_filter.2 ⟨hx, by simp [hxi]; exact hi⟩
      · rw [if_neg hc]
        exact hx

theorem orphan_sweep_correct_witness :
    (cacheConsistent wSweepSt ∧
     (wSweepSt.folders.map (fun g => strLower g.name)).Nodup ∧
     (wSweepSt.folders.map (fun g => g.fid)).Nodup ∧
     wFolderI ∈ wSweepSt.folders ∧ strLower wFolderI.name = FOLDER_IMAGES ∧
     wFolderF ∈ wSweepSt.folders ∧ strLower wFolderF.name = FOLDER_FILES) ∧
    ((prune_orphaned_assets wSweepSt).folders = wSweepSt.folders.map (fun g =>
      if strLower g.name = FOLDER_IMAGES ∨ strLower g.name = FOLDER_FILES then
        { g with files := g.files.filter (fun x => x.id ∈ wSweepSt.activeAssets) }
      else g) ∧
    (prune_orphaned_assets wSweepSt).activeAssets = wSweepSt.activeAssets ∧
    (∀ fs p folder cr u i,
        (upload_file wSweepSt fs p folder cr).1 = (u, some i) → i ≠ 0 →
        i ∈ (upload_file wSweepSt fs p folder cr).2.activeAssets) ∧
    (∀ fs p folder cr j, j ∈ wSweepSt.activeAssets →
        j ∈ (upload_file wSweepSt fs p folder cr).2.activeAssets) ∧
    (∀ i ∈ wSweepSt.activeAssets, ∀ g ∈ wSweepSt.folders, ∀ x ∈ g.files, x.id = i →
        ∃ g' ∈ (prune_orphaned_assets wSweepSt).folders, x ∈ g'.files)) :=
  ⟨⟨fun p hp => absurd hp (List.not_mem_nil p), by decide, by decide,
    by decide, by decide, by decide, by decide⟩,
   orphan_sweep_correct wSweepSt wFolderI wFolderF
     (fun p hp => absurd hp (List.not_mem_nil p)) (by decide) (by decide)
     (by decide) (by decide) (by decide) (by decide)⟩

theorem syncQuestions_syncMap (st : RunState) (qid : Nat) (qds : List QData) :
    (syncQuestions st qid qds).syncMap = st.syncMap := by
  unfold syncQuestions
  dsimp only
  generalize (((st.quizzes.find? (fun q => q.qid = qid)).map (fun q => q.questions)).getD []) = ex
  induction qds generalizing st with
  | nil => rfl
  | cons qd rest ih =>
    simp only [List.foldl_cons]
    rw [ih]
    cases ex.find? (fun e => e.question_name = qd.question_name) with
    | some e =>
      dsimp only
      by_cases hdq : qDiffers e qd = true
      · rw [if_pos hdq]; rfl
      · rw [if_neg hdq]
    | none => rfl

theorem quizSync_update_fingerprint (st : RunState) (fs : Fs)
    (filePath root d title : String) (assets : List (String × String))
    (qds : List QData) (pub : Bool) (qt : String) (jm dm : ℚ)
    (hj : fs.mtime filePath = some jm)
    (hd : fs.mtime (joinPath (pathDirname filePath) d) = some dm)
    (hrun : (quizSync st fs filePath (some root) title (some d) assets qds pub qt).2 = false) :
    ∃ i, dget (relpath filePath root)
        (quizSync st fs filePath (some root) title (some d) assets qds pub qt).1.syncMap =
      some (.record { id := some i, mtime := some (jm + dm), url := none }) := by
  unfold quizSync at hrun ⊢
  dsimp only at hrun ⊢
  rw [hj, hd] at hrun ⊢
  simp only [Option.getD_some] at hrun ⊢
  split at hrun
  · rw [if_pos (by assumption)]
    dsimp only
    unfold editQuizPublished
    dsimp only
    rw [syncQuestions_syncMap]
    dsimp only
    unfold save_mapped_id
    dsimp only
    exact ⟨_, dget_dinsert_self _ _ _⟩
  · dsimp only at hrun
    exact absurd hrun (by simp)

theorem quizSync_stale (st : RunState) (fs : Fs)
    (filePath root d title : String) (assets : List (String × String))
    (qds : List QData) (pub : Bool) (qt : String) (jm dm : ℚ) (r : SyncRec)
    (hj : fs.mtime filePath = some jm)
    (hd : fs.mtime (joinPath (pathDirname filePath) d) = some dm)
    (hdg : dget (relpath filePath root) st.syncMap = some (.record r))
    (hm : r.mtime ≠ some (jm + dm)) :
    (quizSync st fs filePath (some root) title (some d) assets qds pub qt).2 = false := by
  unfold quizSync get_mapped_id
  dsimp only
  rw [hj, hd, hdg]
  simp only [Option.getD_some]
  dsimp only
  cases hri : r.id with
  | none =>
    dsimp only
    rw [if_pos rfl]
  | some qid =>
    dsimp only
    by_cases hq : qid ≠ 0 ∧ st.quizzes.any (fun q => q.qid = qid) = true
    · rw [if_pos hq]
      dsimp only
      rw [if_pos (decide_eq_true hm)]
    · rw [if_neg hq]
      dsimp only
      rw [if_pos rfl]

/-- C7: Composite fingerprint sensitivity.  For a quiz drawing content from
both the quiz file and a declared description file, a sync run that updated
the quiz stores as fingerprint the sum of the two files' modification
times; and after that run, changing the modification time of either one of
the contributing files (the other unchanged) makes the next sync find the
stored fingerprint different from the current one and re-sync the quiz
instead of skipping it. -/
theorem composite_fingerprint_sensitivity
    (st : RunState) (fs1 fs2 : Fs) (filePath root d title : String)
    (assets : List (String × String)) (qds : List QData) (pub : Bool) (qt : String)
    (jm1 dm1 jm2 dm2 : ℚ)
    (h1j : fs1.mtime filePath = some jm1)
    (h1d : fs1.mtime (joinPath (pathDirname filePath) d) = some dm1)
    (h2j : fs2.mtime filePath = some jm2)
    (h2d : fs2.mtime (joinPath (pathDirname filePath) d) = some dm2)
    (hrun1 : (quizSync st fs1 filePath (some root) title (some d) assets qds pub qt).2 =
      false)
    (hchange : (jm2 ≠ jm1 ∧ dm2 = dm1) ∨ (jm2 = jm1 ∧ dm2 ≠ dm1)) :
    (∃ i, dget (relpath filePath root)
        (quizSync st fs1 filePath (some root) title (some d) assets qds pub qt).1.syncMap =
      some (.record { id := some i, mtime := some (jm1 + dm1), url := none })) ∧
    (quizSync (quizSync st fs1 filePath (some root) title (some d) assets qds pub qt).1
        fs2 filePath (some root) title (some d) assets qds pub qt).2 = false := by
  obtain ⟨i, hstored⟩ := quizSync_update_fingerprint st fs1 filePath root d title assets
    qds pub qt jm1 dm1 h1j h1d hrun1
  have hsum : jm2 + dm2 ≠ jm1 + dm1 := by
    rcases hchange with ⟨hne, heq⟩ | ⟨heq, hne⟩
    · rw [heq]; exact fun hc => hne (by linarith)
    · rw [heq]; exact fun hc => hne (by linarith)
  refine ⟨⟨i, hstored⟩, ?_⟩
  exact quizSync_stale _ fs2 filePath root d title assets qds pub qt jm2 dm2
    { id := some i, mtime := some (jm1 + dm1), url := none } h2j h2d hstored
    (fun hc => hsum (Option.some.inj hc).symm)

theorem composite_fingerprint_sensitivity_witness :
    (wC7Fs1.mtime "course/quiz.json" = some 100 ∧
     wC7Fs1.mtime (joinPath (pathDirname "course/quiz.json") "desc.md") = some 7 ∧
     wC7Fs2.mtime "course/quiz.json" = some 101 ∧
     wC7Fs2.mtime (joinPath (pathDirname "course/quiz.json") "desc.md") = some 7 ∧
     (quizSync {} wC7Fs1 "course/quiz.json" (some "course") "Quiz" (some "desc.md")
        [] [] true "assignment").2 = false ∧
     (((101 : ℚ) ≠ 100 ∧ (7 : ℚ) = 7) ∨ ((101 : ℚ) = 100 ∧ (7 : ℚ) ≠ 7))) ∧
    ((∃ i, dget (relpath "course/quiz.json" "course")
        (quizSync {} wC7Fs1 "course/quiz.json" (some "course") "Quiz" (some "desc.md")
          [] [] true "assignment").1.syncMap =
      some (.record { id := some i, mtime := some ((100 : ℚ) + 7), url := none })) ∧
     (quizSync (quizSync {} wC7Fs1 "course/quiz.json" (some "course") "Quiz"
          (some "desc.md") [] [] true "assignment").1
        wC7Fs2 "course/quiz.json" (some "course") "Quiz" (some "desc.md")
        [] [] true "assignment").2 = false) :=
  ⟨⟨by decide, by decide, by decide, by decide, by decide,
    Or.inl ⟨by norm_num, rfl⟩⟩,
   composite_fingerprint_sensitivity {} wC7Fs1 wC7Fs2 "course/quiz.json" "course"
     "desc.md" "Quiz" [] [] true "assignment" 100 7 101 7 (by decide) (by decide)
     (by decide) (by decide) (by decide) (Or.inl ⟨by norm_num, rfl⟩)⟩

theorem mkFileUrl_ne (i : Nat) : mkFileUrl i ≠ "" := by
  intro h
  unfold mkFileUrl at h
  have hl := congrArg String.length h
  rw [String.length_append] at hl
  have h1 : ("https://canvas/files/" : String).length = 21 := rfl
  have h2 : ("" : String).length = 0 := rfl
  omega

theorem mkFileUrl_truthy (i : Nat) : truthyUrl (some (mkFileUrl i)) = true := by
  unfold truthyUrl
  exact decide_eq_true (mkFileUrl_ne i)

theorem gocf_frame (st : RunState) (nm : String) :
    (get_or_create_folder st nm).2.syncMap = st.syncMap ∧
    (get_or_create_folder st nm).2.pages = st.pages ∧
    (get_or_create_folder st nm).2.quizzes = st.quizzes ∧
    st.nextId ≤ (get_or_create_folder st nm).2.nextId := by
  unfold get_or_create_folder
  dsimp only
  cases dget (strLower nm) st.folderCache with
  | some fid => exact ⟨rfl, rfl, rfl, Nat.le_refl _⟩
  | none =>
    dsimp only
    cases dget (strLower nm)
        (st.folders.foldl (fun c f => dinsert (strLower f.name) f.fid c) st.folderCache) with
    | some fid => exact ⟨rfl, rfl, rfl, Nat.le_refl _⟩
    | none => exact ⟨rfl, rfl, rfl, Nat.le_succ _⟩

theorem upload_frame (st : RunState) (fs : Fs) (p f : String) (cr : Option String) :
    (upload_file st fs p f cr).2.pages = st.pages ∧
    (upload_file st fs p f cr).2.quizzes = st.quizzes ∧
    st.nextId ≤ (upload_file st fs p f cr).2.nextId := by
  unfold upload_file
  cases hm : fs.mtime p with
  | none => exact ⟨rfl, rfl, Nat.le_refl _⟩
  | some m =>
    dsimp only
    set cacheRec := (match cr with
      | some root =>
        match dget (relpath p root) st.syncMap with
        | some (.record r) =>
          if r.mtime = some m ∧ truthyUrl r.url then some r else none
        | _ => none
      | none => none) with hcr
    clear_value cacheRec
    cases cacheRec with
    | some r =>
      dsimp only
      cases r.id with
      | none => exact ⟨rfl, rfl, Nat.le_refl _⟩
      | some i =>
        dsimp only
        by_cases hi : i ≠ 0
        · rw [if_pos hi]; exact ⟨rfl, rfl, Nat.le_refl _⟩
        · rw [if_neg hi]; exact ⟨rfl, rfl, Nat.le_refl _⟩
    | none =>
      dsimp only
      obtain ⟨h1, h2, h3, h4⟩ := gocf_frame st f
      exact ⟨h2, h3, Nat.le_trans h4 (Nat.le_succ _)⟩

theorem upload_dget_other (st : RunState) (fs : Fs) (p f root key : String)
    (hk : relpath p root ≠ key) :
    dget key (upload_file st fs p f (some root)).2.syncMap = dget key st.syncMap := by
  unfold upload_file
  cases hm : fs.mtime p with
  | none => rfl
  | some m =>
    dsimp only
    set cacheRec := (match dget (relpath p root) st.syncMap with
      | some (.record r) =>
        if r.mtime = some m ∧ truthyUrl r.url then some r else none
      | _ => none) with hcr
    clear_value cacheRec
    cases cacheRec with
    | some r =>
      dsimp only
      cases r.id with
      | none => rfl
      | some i =>
        dsimp only
        by_cases hi : i ≠ 0
        · rw [if_pos hi]
        · rw [if_neg hi]
    | none =>
      dsimp only
      rw [dget_dinsert_ne _ _ _ _ (fun hh => hk hh.symm)]
      exact congrArg (dget key) (gocf_frame st f).1

theorem entryOK_congr (fs : Fs) (root : String) (a : String × String)
    (s1 s2 : RunState) (h : s1.syncMap = s2.syncMap) (hh : entryOK fs root s1 a) :
    entryOK fs root s2 a := by
  rcases hh with h1 | ⟨r, m, h1, h2, h3, h4⟩
  · exact Or.inl h1
  · exact Or.inr ⟨r, m, h1, by rw [← h]; exact h2, h3, h4⟩

theorem upload_cached (st : RunState) (fs : Fs) (a : String × String) (root : String)
    (h : entryOK fs root st a) :
    (upload_file st fs a.1 a.2 (some root)).2.syncMap = st.syncMap ∧
    (upload_file st fs a.1 a.2 (some root)).2.writes = st.writes := by
  rcases h with hnone | ⟨r, m, hm, hdg, hrm, hru⟩
  · unfold upload_file
    rw [hnone]
    exact ⟨rfl, rfl⟩
  · unfold upload_file
    rw [hm]
    dsimp only
    rw [hdg]
    dsimp only
    rw [if_pos ⟨hrm, hru⟩]
    dsimp only
    cases r.id with
    | none => exact ⟨rfl, rfl⟩
    | some i =>
      dsimp only
      by_cases hi : i ≠ 0
      · rw [if_pos hi]; exact ⟨rfl, rfl⟩
      · rw [if_neg hi]; exact ⟨rfl, rfl⟩

theorem upload_establish (st : RunState) (fs : Fs) (a : String × String) (root : String) :
    entryOK fs root (upload_file st fs a.1 a.2 (some root)).2 a := by
  cases hm : fs.mtime a.1 with
  | none => exact Or.inl hm
  | some m =>
    unfold upload_file
    rw [hm]
    dsimp only
    cases hdg : dget (relpath a.1 root) st.syncMap with
    | none =>
      dsimp only
      refine Or.inr ⟨⟨some (get_or_create_folder st a.2).2.nextId, some m, some (mkFileUrl (get_or_create_folder st a.2).2.nextId)⟩, m, hm, ?_, rfl, mkFileUrl_truthy _⟩
      dsimp only
      exact dget_dinsert_self _ _ _
    | some e =>
      cases e with
      | bare i =>
        dsimp only
        refine Or.inr ⟨⟨some (get_or_create_folder st a.2).2.nextId, some m, some (mkFileUrl (get_or_create_folder st a.2).2.nextId)⟩, m, hm, ?_, rfl, mkFileUrl_truthy _⟩
        dsimp only
        exact dget_dinsert_self _ _ _
      | record r =>
        dsimp only
        by_cases hc : r.mtime = some m ∧ truthyUrl r.url = true
        · rw [if_pos hc]
          dsimp only
          cases r.id with
          | none => exact Or.inr ⟨r, m, hm, hdg, hc.1, hc.2⟩
          | some i =>
            dsimp only
            by_cases hi : i ≠ 0
            · rw [if_pos hi]
              exact Or.inr ⟨r, m, hm, hdg, hc.1, hc.2⟩
            · rw [if_neg hi]
              exact Or.inr ⟨r, m, hm, hdg, hc.1, hc.2⟩
        · rw [if_neg hc]
          dsimp only
          refine Or.inr ⟨⟨some (get_or_create_folder st a.2).2.nextId, some m, some (mkFileUrl (get_or_create_folder st a.2).2.nextId)⟩, m, hm, ?_, rfl, mkFileUrl_truthy _⟩
          dsimp only
          exact dget_dinsert_self _ _ _

theorem upload_preserve (st : RunState) (fs : Fs) (a b : String × String) (root : String)
    (hsame : relpath b.1 root = relpath a.1 root → fs.mtime b.1 = fs.mtime a.1)
    (h : entryOK fs root st a) :
    entryOK fs root (upload_file st fs b.1 b.2 (some root)).2 a := by
  cases hm : fs.mtime b.1 with
  | none =>
    unfold upload_file
    rw [hm]
    exact h
  | some m =>
    unfold upload_file
    rw [hm]
    dsimp only
    cases hdg : dget (relpath b.1 root) st.syncMap with
    | none =>
      dsimp only
      by_cases hkk : relpath b.1 root = relpath a.1 root
      · rcases h with h1 | ⟨r, mA, hmA, hdgA, hrm, hru⟩
        · rw [hsame hkk] at hm
          exact absurd (hm.symm.trans h1) (by simp)
        · have hmm : some m = some mA := by
            rw [← hm, ← hmA]
            exact hsame hkk
          refine Or.inr ⟨⟨some (get_or_create_folder st b.2).2.nextId, some m, some (mkFileUrl (get_or_create_folder st b.2).2.nextId)⟩, mA, hmA, ?_, hmm, mkFileUrl_truthy _⟩
          dsimp only
          rw [← hkk]
          exact dget_dinsert_self _ _ _
      · rcases h with h1 | ⟨r, mA, hmA, hdgA, hrm, hru⟩
        · exact Or.inl h1
        · refine Or.inr ⟨r, mA, hmA, ?_, hrm, hru⟩
          dsimp only
          rw [dget_dinsert_ne _ _ _ _ (fun hh => hkk hh.symm), (gocf_frame st b.2).1]
          exact hdgA
    | some e =>
      cases e with
      | bare i =>
        dsimp only
        by_cases hkk : relpath b.1 root = relpath a.1 root
        · rcases h with h1 | ⟨r, mA, hmA, hdgA, hrm, hru⟩
          · rw [hsame hkk] at hm
            exact absurd (hm.symm.trans h1) (by simp)
          · have hmm : some m = some mA := by
              rw [← hm, ← hmA]
              exact hsame hkk
            refine Or.inr ⟨⟨some (get_or_create_folder st b.2).2.nextId, some m, some (mkFileUrl (get_or_create_folder st b.2).2.nextId)⟩, mA, hmA, ?_, hmm, mkFileUrl_truthy _⟩
            dsimp only
            rw [← hkk]
            exact dget_dinsert_self _ _ _
        · rcases h with h1 | ⟨r, mA, hmA, hdgA, hrm, hru⟩
          · exact Or.inl h1
          · refine Or.inr ⟨r, mA, hmA, ?_, hrm, hru⟩
            dsimp only
            rw [dget_dinsert_ne _ _ _ _ (fun hh => hkk hh.symm), (gocf_frame st b.2).1]
            exact hdgA
      | record r0 =>
        dsimp only
        by_cases hc : r0.mtime = some m ∧ truthyUrl r0.url = true
        · rw [if_pos hc]
          dsimp only
          have hsm : ∀ s2 : RunState, s2.syncMap = st.syncMap → entryOK fs root s2 a :=
            fun s2 hs => entryOK_congr fs root a st s2 hs.symm h
          cases r0.id with
          | none => exact hsm st rfl
          | some i =>
            dsimp only
            by_cases hi : i ≠ 0
            · rw [if_pos hi]
              exact hsm _ rfl
            · rw [if_neg hi]
              exact hsm st rfl
        · rw [if_neg hc]
          dsimp only
          by_cases hkk : relpath b.1 root = relpath a.1 root
          · rcases h with h1 | ⟨r, mA, hmA, hdgA, hrm, hru⟩
            · rw [hsame hkk] at hm
              exact absurd (hm.symm.trans h1) (by simp)
            · have hmm : some m = some mA := by
                rw [← hm, ← hmA]
                exact hsame hkk
              refine Or.inr ⟨⟨some (get_or_create_folder st b.2).2.nextId, some m, some (mkFileUrl (get_or_create_folder st b.2).2.nextId)⟩, mA, hmA, ?_, hmm, mkFileUrl_truthy _⟩
              dsimp only
              rw [← hkk]
              exact dget_dinsert_self _ _ _
          · rcases h with h1 | ⟨r, mA, hmA, hdgA, hrm, hru⟩
            · exact Or.inl h1
            · refine Or.inr ⟨r, mA, hmA, ?_, hrm, hru⟩
              dsimp only
              rw [dget_dinsert_ne _ _ _ _ (fun hh => hkk hh.symm), (gocf_frame st b.2).1]
              exact hdgA

theorem pca_cons (st : RunState) (fs : Fs) (x : String × String)
    (xs : List (String × String)) (cr : Option String) :
    processContentAssets st fs (x :: xs) cr =
      processContentAssets (upload_file st fs x.1 x.2 cr).2 fs xs cr := rfl

theorem pca_frame (st : RunState) (fs : Fs) (assets : List (String × String))
    (cr : Option String) :
    (processContentAssets st fs assets cr).pages = st.pages ∧
    (processContentAssets st fs assets cr).quizzes = st.quizzes ∧
    st.nextId ≤ (processContentAssets st fs assets cr).nextId := by
  induction assets generalizing st with
  | nil => exact ⟨rfl, rfl, Nat.le_refl _⟩
  | cons x xs ih =>
    rw [pca_cons]
    obtain ⟨h1, h2, h3⟩ := ih (upload_file st fs x.1 x.2 cr).2
    obtain ⟨g1, g2, g3⟩ := upload_frame st fs x.1 x.2 cr
    exact ⟨h1.trans g1, h2.trans g2, Nat.le_trans g3 h3⟩

theorem pca_dget_other (st : RunState) (fs : Fs) (assets : List (String × String))
    (root key : String) (hall : ∀ b ∈ assets, relpath b.1 root ≠ key) :
    dget key (processContentAssets st fs assets (some root)).syncMap =
      dget key st.syncMap := by
  induction assets generalizing st with
  | nil => rfl
  | cons x xs ih =>
    rw [pca_cons]
    rw [ih _ (fun b hb => hall b (List.mem_cons_of_mem _ hb))]
    exact upload_dget_other st fs x.1 x.2 root key (hall x (List.mem_cons_self _ _))

theorem pca_preserve (st : RunState) (fs : Fs) (assets : List (String × String))
    (root : String) (a : String × String)
    (hsame : ∀ b ∈ assets, relpath b.1 root = relpath a.1 root →
      fs.mtime b.1 = fs.mtime a.1)
    (h : entryOK fs root st a) :
    entryOK fs root (processContentAssets st fs assets (some root)) a := by
  induction assets generalizing st with
  | nil => exact h
  | cons x xs ih =>
    rw [pca_cons]
    exact ih _ (fun b hb => hsame b (List.mem_cons_of_mem _ hb))
      (upload_preserve st fs a x root (hsame x (List.mem_cons_self _ _)) h)

theorem pca_establish (st : RunState) (fs : Fs) (assets : List (String × String))
    (root : String)
    (hinj : ∀ b ∈ assets, ∀ c ∈ assets, relpath b.1 root = relpath c.1 root →
      fs.mtime b.1 = fs.mtime c.1) :
    ∀ a ∈ assets, entryOK fs root (processContentAssets st fs assets (some root)) a := by
  induction assets generalizing st with
  | nil => exact fun a ha => absurd ha (List.not_mem_nil a)
  | cons x xs ih =>
    intro a ha
    rw [pca_cons]
    rcases List.mem_cons.1 ha with rfl | hmem
    · exact pca_preserve _ fs xs root a
        (fun b hb => hinj b (List.mem_cons_of_mem _ hb) a (List.mem_cons_self _ _))
        (upload_establish st fs a root)
    · exact ih _ (fun b hb c hc =>
        hinj b (List.mem_cons_of_mem _ hb) c (List.mem_cons_of_mem _ hc)) a hmem

theorem pca_cached (st : RunState) (fs : Fs) (assets : List (String × String))
    (root : String) (hall : ∀ a ∈ assets, entryOK fs root st a) :
    (processContentAssets st fs assets (some root)).syncMap = st.syncMap ∧
    (processContentAssets st fs assets (some root)).writes = st.writes := by
  induction assets generalizing st with
  | nil => exact ⟨rfl, rfl⟩
  | cons x xs ih =>
    rw [pca_cons]
    obtain ⟨h1, h2⟩ := upload_cached st fs x root (hall x (List.mem_cons_self _ _))
    have hall2 : ∀ a ∈ xs, entryOK fs root (upload_file st fs x.1 x.2 (some root)).2 a :=
      fun a ha => entryOK_congr fs root a st _ h1.symm (hall a (List.mem_cons_of_mem _ ha))
    obtain ⟨g1, g2⟩ := ih _ hall2
    exact ⟨g1.trans h1, g2.trans h2⟩

theorem any_pid_map (l : List RPage) (g : RPage → RPage) (hg : ∀ z, (g z).pid = z.pid)
    (i : Nat) : (l.map g).any (fun z => z.pid = i) = l.any (fun z => z.pid = i) := by
  induction l with
  | nil => rfl
  | cons z rest ih => simp only [List.map_cons, List.any_cons, ih, hg z]

theorem pageSyncRest_ready (st1 : RunState) (fs : Fs)
    (root filePath title rendered : String) (published : Bool)
    (assets : List (String × String))
    (hpk : ∀ b ∈ assets, relpath b.1 root ≠ relpath filePath root)
    (hall : ∀ a ∈ assets, entryOK fs root st1 a)
    (hp0 : ∀ p ∈ st1.pages, p.pid ≠ 0)
    (hn0 : st1.nextId ≠ 0) :
    pageReady fs root filePath assets
      (pageSyncRest st1 fs root filePath title rendered published) := by
  unfold pageSyncRest
  dsimp only
  cases hft : st1.pages.find? (fun p => p.title = title) with
  | some p =>
    dsimp only
    constructor
    · refine ⟨p.pid, ⟨some p.pid, some ((fs.mtime filePath).getD 0), none⟩, ?_, rfl,
        hp0 p (List.mem_of_find?_eq_some hft), rfl, ?_⟩
      · unfold save_mapped_id
        dsimp only
        exact dget_dinsert_self _ _ _
      · unfold editPage
        dsimp only
        rw [any_pid_map _ _ (fun z => by
          by_cases hz : z.pid = p.pid
          · rw [if_pos hz]
          · rw [if_neg hz])]
        exact List.any_eq_true.2 ⟨p, List.mem_of_find?_eq_some hft, by simp⟩
    · intro a ha
      rcases hall a ha with hn | ⟨r, m, hm, hdg, hrm, hru⟩
      · exact Or.inl hn
      · refine Or.inr ⟨r, m, hm, ?_, hrm, hru⟩
        dsimp only
        unfold save_mapped_id
        dsimp only
        rw [dget_dinsert_ne _ _ _ _ (hpk a ha)]
        exact hdg
  | none =>
    dsimp only
    constructor
    · refine ⟨st1.nextId, ⟨some st1.nextId, some ((fs.mtime filePath).getD 0), none⟩, ?_,
        rfl, hn0, rfl, ?_⟩
      · unfold save_mapped_id
        dsimp only
        exact dget_dinsert_self _ _ _
      · dsimp only
        rw [List.any_append]
        simp
    · intro a ha
      rcases hall a ha with hn | ⟨r, m, hm, hdg, hrm, hru⟩
      · exact Or.inl hn
      · refine Or.inr ⟨r, m, hm, ?_, hrm, hru⟩
        dsimp only
        unfold save_mapped_id
        dsimp only
        rw [dget_dinsert_ne _ _ _ _ (hpk a ha)]
        exact hdg

theorem pageSync_ready (st : RunState) (fs : Fs) (root filePath title : String)
    (assets : List (String × String)) (rendered : String) (published : Bool)
    (hinj : ∀ b ∈ assets, ∀ c ∈ assets, relpath b.1 root = relpath c.1 root →
      fs.mtime b.1 = fs.mtime c.1)
    (hpk : ∀ b ∈ assets, relpath b.1 root ≠ relpath filePath root)
    (hp0 : ∀ p ∈ st.pages, p.pid ≠ 0)
    (hn0 : st.nextId ≠ 0) :
    pageReady fs root filePath assets
      (pageSync st fs filePath (some root) title assets rendered published).1 := by
  have hall := pca_establish st fs assets root hinj
  have hframe := pca_frame st fs assets (some root)
  have hp0a : ∀ p ∈ (processContentAssets st fs assets (some root)).pages, p.pid ≠ 0 := by
    rw [hframe.1]; exact hp0
  have hn0a : (processContentAssets st fs assets (some root)).nextId ≠ 0 := by
    have := hframe.2.2; omega
  unfold pageSync get_mapped_id
  dsimp only
  cases hdg : dget (relpath filePath root) st.syncMap with
  | none =>
    dsimp only
    exact pageSyncRest_ready _ fs root filePath title rendered published assets
      hpk hall hp0a hn0a
  | some e =>
    cases e with
    | bare i =>
      dsimp only
      exact pageSyncRest_ready _ fs root filePath title rendered published assets
        hpk hall hp0a hn0a
    | record r =>
      dsimp only
      cases hri : r.id with
      | none =>
        dsimp only
        exact pageSyncRest_ready _ fs root filePath title rendered published assets
          hpk hall hp0a hn0a
      | some pid =>
        dsimp only
        by_cases hc : pid ≠ 0 ∧ r.mtime = some ((fs.mtime filePath).getD 0) ∧
            st.pages.any (fun p => p.pid = pid) = true
        · rw [if_pos hc]
          dsimp only
          refine ⟨⟨pid, r, ?_, hri, hc.1, hc.2.1, ?_⟩, hall⟩
          · rw [pca_dget_other st fs assets root _ (fun b hb => hpk b hb)]
            exact hdg
          · rw [hframe.1]
            exact hc.2.2
        · rw [if_neg hc]
          dsimp only
          exact pageSyncRest_ready _ fs root filePath title rendered published assets
            hpk hall hp0a hn0a

theorem pageSync_skips (st : RunState) (fs : Fs) (root filePath title : String)
    (assets : List (String × String)) (rendered : String) (published : Bool)
    (hready : pageReady fs root filePath assets st) :
    (pageSync st fs filePath (some root) title assets rendered published).2 = true ∧
    (pageSync st fs filePath (some root) title assets rendered published).1.writes =
      st.writes := by
  obtain ⟨⟨pid, r, hdg, hid, h0, hm, hany⟩, hall⟩ := hready
  unfold pageSync get_mapped_id
  dsimp only
  rw [hdg]
  dsimp only
  rw [hid]
  dsimp only
  rw [if_pos ⟨h0, hm, hany⟩]
  dsimp only
  exact ⟨rfl, (pca_cached st fs assets root hall).2⟩

theorem quizSync_skip_id (st : RunState) (fs : Fs) (filePath : String)
    (cr : Option String) (title : String) (descFile : Option String)
    (assets : List (String × String)) (qds : List QData) (pub : Bool) (qt : String)
    (h : (quizSync st fs filePath cr title descFile assets qds pub qt).2 = true) :
    (quizSync st fs filePath cr title descFile assets qds pub qt).1 = st := by
  unfold quizSync at h ⊢
  dsimp only at h ⊢
  split at h
  · dsimp only at h
    exact absurd h (by simp)
  · rw [if_neg (by assumption)]

theorem any_qid_map (l : List RQuiz) (g : RQuiz → RQuiz) (hg : ∀ z, (g z).qid = z.qid)
    (i : Nat) : (l.map g).any (fun z => z.qid = i) = l.any (fun z => z.qid = i) := by
  induction l with
  | nil => rfl
  | cons z rest ih => simp only [List.map_cons, List.any_cons, ih, hg z]

theorem editQuizPublished_any (st : RunState) (q : Nat) (p : Bool) (i : Nat) :
    (editQuizPublished st q p).quizzes.any (fun z => z.qid = i) =
      st.quizzes.any (fun z => z.qid = i) := by
  unfold editQuizPublished
  dsimp only
  exact any_qid_map _ _ (fun z => by
    by_cases hz : z.qid = q
    · rw [if_pos hz]
    · rw [if_neg hz]) i

theorem editQuizFields_any (st : RunState) (q : Nat) (t : String) (p : Bool)
    (qt : String) (i : Nat) :
    (editQuizFields st q t p qt).quizzes.any (fun z => z.qid = i) =
      st.quizzes.any (fun z => z.qid = i) := by
  unfold editQuizFields
  dsimp only
  exact any_qid_map _ _ (fun z => by
    by_cases hz : z.qid = q
    · rw [if_pos hz]
    · rw [if_neg hz]) i

theorem editQuestion_any (st : RunState) (q : Nat) (qd : QData) (i : Nat) :
    (editQuestion st q qd).quizzes.any (fun z => z.qid = i) =
      st.quizzes.any (fun z => z.qid = i) := by
  unfold editQuestion
  dsimp only
  exact any_qid_map _ _ (fun z => by
    by_cases hz : z.qid = q
    · rw [if_pos hz]
    · rw [if_neg hz]) i

theorem createQuestion_any (st : RunState) (q : Nat) (qd : QData) (i : Nat) :
    (createQuestion st q qd).quizzes.any (fun z => z.qid = i) =
      st.quizzes.any (fun z => z.qid = i) := by
  unfold createQuestion
  dsimp only
  exact any_qid_map _ _ (fun z => by
    by_cases hz : z.qid = q
    · rw [if_pos hz]
    · rw [if_neg hz]) i

theorem syncQuestions_any (st : RunState) (q : Nat) (qds : List QData) (i : Nat) :
    (syncQuestions st q qds).quizzes.any (fun z => z.qid = i) =
      st.quizzes.any (fun z => z.qid = i) := by
  unfold syncQuestions
  dsimp only
  generalize (((st.quizzes.find? (fun z => z.qid = q)).map (fun z => z.questions)).getD [])
    = ex
  induction qds generalizing st with
  | nil => rfl
  | cons qd rest ih =>
    simp only [List.foldl_cons]
    rw [ih]
    cases ex.find? (fun e => e.question_name = qd.question_name) with
    | some e =>
      dsimp only
      by_cases hdq : qDiffers e qd = true
      · rw [if_pos hdq]
        exact editQuestion_any _ _ _ _
      · rw [if_neg hdq]
    | none => exact createQuestion_any _ _ _ _

theorem quizSyncUpd_ready (st1 : RunState) (root filePath title : String) (cm : ℚ)
    (qds : List QData) (pub : Bool) (qt : String) (obj : Option Nat)
    (hobj : ∀ i, obj = some i → i ≠ 0 ∧ st1.quizzes.any (fun z => z.qid = i) = true)
    (hn0 : st1.nextId ≠ 0) :
    ∃ i r, dget (relpath filePath root)
        (quizSyncUpd st1 root filePath title cm qds pub qt obj).syncMap =
          some (.record r) ∧
      r.id = some i ∧ i ≠ 0 ∧ r.mtime = some cm ∧
      (quizSyncUpd st1 root filePath title cm qds pub qt obj).quizzes.any
        (fun z => z.qid = i) = true := by
  unfold quizSyncUpd
  dsimp only
  cases obj with
  | some Q =>
    dsimp only
    obtain ⟨hQ0, hQany⟩ := hobj Q rfl
    refine ⟨Q, ⟨some Q, some cm, none⟩, ?_, rfl, hQ0, rfl, ?_⟩
    · unfold editQuizPublished
      dsimp only
      rw [syncQuestions_syncMap]
      dsimp only
      unfold save_mapped_id
      dsimp only
      exact dget_dinsert_self _ _ _
    · rw [editQuizPublished_any, syncQuestions_any]
      dsimp only
      rw [editQuizFields_any, editQuizPublished_any]
      exact hQany
  | none =>
    dsimp only
    refine ⟨st1.nextId, ⟨some st1.nextId, some cm, none⟩, ?_, rfl, hn0, rfl, ?_⟩
    · unfold editQuizPublished
      dsimp only
      rw [syncQuestions_syncMap]
      dsimp only
      unfold save_mapped_id
      dsimp only
      exact dget_dinsert_self _ _ _
    · rw [editQuizPublished_any, syncQuestions_any]
      dsimp only
      rw [List.any_append]
      simp

theorem quizSync_update_ready (st : RunState) (fs : Fs)
    (filePath root title : String) (descFile : Option String)
    (assets : List (String × String)) (qds : List QData) (pub : Bool) (qt : String)
    (hq0 : ∀ q ∈ st.quizzes, q.qid ≠ 0)
    (hn0 : st.nextId ≠ 0)
    (hrun : (quizSync st fs filePath (some root) title descFile assets qds pub qt).2 =
      false) :
    ∃ i r, dget (relpath filePath root)
        (quizSync st fs filePath (some root) title descFile assets qds pub qt).1.syncMap =
          some (.record r) ∧
      r.id = some i ∧ i ≠ 0 ∧
      r.mtime = some (quizFingerprint fs filePath descFile) ∧
      (quizSync st fs filePath (some root) title descFile assets qds pub qt).1.quizzes.any
        (fun z => z.qid = i) = true := by
  have hframe := pca_frame st fs assets (some root)
  have hn0a : (processContentAssets st fs assets (some root)).nextId ≠ 0 := by
    have := hframe.2.2; omega
  have hanyOf : ∀ i : Nat, st.quizzes.any (fun z => z.qid = i) = true →
      (processContentAssets st fs assets (some root)).quizzes.any
        (fun z => z.qid = i) = true := by
    intro i h
    rw [hframe.2.1]
    exact h
  have hmemAny : ∀ qz ∈ st.quizzes, st.quizzes.any (fun z => z.qid = qz.qid) = true :=
    fun qz hq => List.any_eq_true.2 ⟨qz, hq, by simp⟩
  have hnone : ∀ i : Nat, (none : Option Nat) = some i → i ≠ 0 ∧
      (processContentAssets st fs assets (some root)).quizzes.any
        (fun z => z.qid = i) = true :=
    fun i hi => absurd hi (by simp)
  cases hdgq : dget (relpath filePath root) st.syncMap with
  | none =>
    unfold quizSync get_mapped_id
    dsimp only
    simp only [hdgq]
    cases hft : st.quizzes.find? (fun q => q.title = title) with
    | some qz =>
      simp only [hft, Option.map_some']
      exact quizSyncUpd_ready _ root filePath title _ qds pub qt (some qz.qid)
        (fun i hi => Option.some.inj hi ▸
          ⟨hq0 qz (List.mem_of_find?_eq_some hft),
           hanyOf _ (hmemAny qz (List.mem_of_find?_eq_some hft))⟩) hn0a
    | none =>
      simp only [hft, Option.map_none']
      exact quizSyncUpd_ready _ root filePath title _ qds pub qt none hnone hn0a
  | some e =>
    cases e with
    | bare i0 =>
      unfold quizSync get_mapped_id
      dsimp only
      simp only [hdgq]
      by_cases hc : i0 ≠ 0 ∧ st.quizzes.any (fun q => q.qid = i0) = true
      · simp only [eq_true hc, if_true]
        exact quizSyncUpd_ready _ root filePath title _ qds pub qt (some i0)
          (fun i hi => Option.some.inj hi ▸ ⟨hc.1, hanyOf _ hc.2⟩) hn0a
      · simp only [eq_false hc, if_false]
        cases hft : st.quizzes.find? (fun q => q.title = title) with
        | some qz =>
          simp only [hft, Option.map_some']
          exact quizSyncUpd_ready _ root filePath title _ qds pub qt (some qz.qid)
            (fun i hi => Option.some.inj hi ▸
              ⟨hq0 qz (List.mem_of_find?_eq_some hft),
               hanyOf _ (hmemAny qz (List.mem_of_find?_eq_some hft))⟩) hn0a
        | none =>
          simp only [hft, Option.map_none']
          exact quizSyncUpd_ready _ root filePath title _ qds pub qt none hnone hn0a
    | record r0 =>
      unfold quizSync get_mapped_id at hrun ⊢
      dsimp only at hrun ⊢
      simp only [hdgq] at hrun ⊢
      cases hri : r0.id with
      | none =>
        simp only [hri]
        cases hft : st.quizzes.find? (fun q => q.title = title) with
        | some qz =>
          simp only [hft, Option.map_some']
          exact quizSyncUpd_ready _ root filePath title _ qds pub qt (some qz.qid)
            (fun i hi => Option.some.inj hi ▸
              ⟨hq0 qz (List.mem_of_find?_eq_some hft),
               hanyOf _ (hmemAny qz (List.mem_of_find?_eq_some hft))⟩) hn0a
        | none =>
          simp only [hft, Option.map_none']
          exact quizSyncUpd_ready _ root filePath title _ qds pub qt none hnone hn0a
      | some i0 =>
        simp only [hri] at hrun ⊢
        by_cases hc : i0 ≠ 0 ∧ st.quizzes.any (fun q => q.qid = i0) = true
        · simp only [eq_true hc, if_true] at hrun ⊢
          split at hrun
          · rename_i hnu
            rw [if_pos hnu]
            exact quizSyncUpd_ready _ root filePath title _ qds pub qt (some i0)
              (fun i hi => Option.some.inj hi ▸ ⟨hc.1, hanyOf _ hc.2⟩) hn0a
          · dsimp only at hrun
            exact absurd hrun (by simp)
        · simp only [eq_false hc, if_false] at hrun ⊢
          cases hft : st.quizzes.find? (fun q => q.title = title) with
          | some qz =>
            simp only [hft, Option.map_some']
            exact quizSyncUpd_ready _ root filePath title _ qds pub qt (some qz.qid)
              (fun i hi => Option.some.inj hi ▸
                ⟨hq0 qz (List.mem_of_find?_eq_some hft),
                 hanyOf _ (hmemAny qz (List.mem_of_find?_eq_some hft))⟩) hn0a
          | none =>
            simp only [hft, Option.map_none']
            exact quizSyncUpd_ready _ root filePath title _ qds pub qt none hnone hn0a

theorem quizSync_skips2 (st : RunState) (fs : Fs) (filePath root title : String)
    (descFile : Option String) (assets : List (String × String)) (qds : List QData)
    (pub : Bool) (qt : String) (r : SyncRec) (i : Nat)
    (hdg : dget (relpath filePath root) st.syncMap = some (.record r))
    (hid : r.id = some i) (hi : i ≠ 0)
    (hq : st.quizzes.any (fun z => z.qid = i) = true)
    (hm : r.mtime = some (quizFingerprint fs filePath descFile)) :
    quizSync st fs filePath (some root) title descFile assets qds pub qt = (st, true) := by
  unfold quizSync get_mapped_id
  dsimp only
  rw [hdg]
  dsimp only
  rw [hid]
  dsimp only
  rw [if_pos (show i ≠ 0 ∧ st.quizzes.any (fun q => q.qid = i) = true from ⟨hi, hq⟩)]
  dsimp only
  rw [if_neg (fun hcon => (of_decide_eq_true hcon) (hm.trans (by rfl)))]

/-- C1: Idempotence of sync.  For a page whose asset keys are consistent
(equal keys only for files with equal mtimes) and distinct from the page's
own sync-map key, and for a quiz, in each case starting from a well-formed
remote state (non-null object IDs and a non-null ID supply): whatever the
first sync run did, the second run with unchanged local files reports the
artifact as skipped and performs zero remote writes — change detection
finds the stored fingerprint equal to the current one. -/
theorem sync_idempotent
    (st qst : RunState) (fs : Fs) (root filePath title rendered : String)
    (assets : List (String × String)) (published : Bool)
    (qPath qTitle : String) (descFile : Option String)
    (qAssets : List (String × String)) (qds : List QData) (qPub : Bool) (qType : String)
    (hinj : ∀ b ∈ assets, ∀ c ∈ assets, relpath b.1 root = relpath c.1 root →
      fs.mtime b.1 = fs.mtime c.1)
    (hpk : ∀ b ∈ assets, relpath b.1 root ≠ relpath filePath root)
    (hp0 : ∀ p ∈ st.pages, p.pid ≠ 0)
    (hn0 : st.nextId ≠ 0)
    (hq0 : ∀ q ∈ qst.quizzes, q.qid ≠ 0)
    (hqn0 : qst.nextId ≠ 0) :
    ((pageSync (pageSync st fs filePath (some root) title assets rendered published).1
        fs filePath (some root) title assets rendered published).2 = true ∧
     (pageSync (pageSync st fs filePath (some root) title assets rendered published).1
        fs filePath (some root) title assets rendered published).1.writes =
       (pageSync st fs filePath (some root) title assets rendered published).1.writes) ∧
    ((quizSync (quizSync qst fs qPath (some root) qTitle descFile qAssets qds qPub
          qType).1 fs qPath (some root) qTitle descFile qAssets qds qPub qType).2 =
        true ∧
     (quizSync (quizSync qst fs qPath (some root) qTitle descFile qAssets qds qPub
          qType).1 fs qPath (some root) qTitle descFile qAssets qds qPub qType).1.writes =
       (quizSync qst fs qPath (some root) qTitle descFile qAssets qds qPub
          qType).1.writes) := by
  constructor
  · exact pageSync_skips _ fs root filePath title assets rendered published
      (pageSync_ready st fs root filePath title assets rendered published hinj hpk
        hp0 hn0)
  · by_cases hsk : (quizSync qst fs qPath (some root) qTitle descFile qAssets qds qPub
        qType).2 = true
    · have h1 := quizSync_skip_id qst fs qPath (some root) qTitle descFile qAssets qds
        qPub qType hsk
      rw [h1]
      exact ⟨hsk, by rw [h1]⟩
    · have hrun : (quizSync qst fs qPath (some root) qTitle descFile qAssets qds qPub
          qType).2 = false := by
        cases hh : (quizSync qst fs qPath (some root) qTitle descFile qAssets qds qPub
            qType).2
        · rfl
        · exact absurd hh hsk
      obtain ⟨i, r, hdg, hid, hi, hm, hany⟩ := quizSync_update_ready qst fs qPath root
        qTitle descFile qAssets qds qPub qType hq0 hqn0 hrun
      have h2 := quizSync_skips2 _ fs qPath root qTitle descFile qAssets qds qPub qType
        r i hdg hid hi hany hm
      rw [h2]
      exact ⟨rfl, rfl⟩

theorem sync_idempotent_witness :
    ((∀ b ∈ [("course/img.png", FOLDER_IMAGES)],
        ∀ c ∈ [("course/img.png", FOLDER_IMAGES)],
        relpath b.1 "course" = relpath c.1 "course" → wC1Fs.mtime b.1 = wC1Fs.mtime c.1) ∧
     (∀ b ∈ [("course/img.png", FOLDER_IMAGES)],
        relpath b.1 "course" ≠ relpath "course/page.qmd" "course") ∧
     (∀ p ∈ ({} : RunState).pages, p.pid ≠ 0) ∧
     ({} : RunState).nextId ≠ 0 ∧
     (∀ q ∈ ({} : RunState).quizzes, q.qid ≠ 0)) ∧
    (((pageSync (pageSync {} wC1Fs "course/page.qmd" (some "course") "Page"
          [("course/img.png", FOLDER_IMAGES)] "<p>hi</p>" true).1
        wC1Fs "course/page.qmd" (some "course") "Page"
        [("course/img.png", FOLDER_IMAGES)] "<p>hi</p>" true).2 = true ∧
      (pageSync (pageSync {} wC1Fs "course/page.qmd" (some "course") "Page"
          [("course/img.png", FOLDER_IMAGES)] "<p>hi</p>" true).1
        wC1Fs "course/page.qmd" (some "course") "Page"
        [("course/img.png", FOLDER_IMAGES)] "<p>hi</p>" true).1.writes =
        (pageSync {} wC1Fs "course/page.qmd" (some "course") "Page"
          [("course/img.png", FOLDER_IMAGES)] "<p>hi</p>" true).1.writes) ∧
     ((quizSync (quizSync {} wC1Fs "course/quiz.json" (some "course") "Quiz" none
          [] [] true "assignment").1 wC1Fs "course/quiz.json" (some "course") "Quiz"
          none [] [] true "assignment").2 = true ∧
      (quizSync (quizSync {} wC1Fs "course/quiz.json" (some "course") "Quiz" none
          [] [] true "assignment").1 wC1Fs "course/quiz.json" (some "course") "Quiz"
          none [] [] true "assignment").1.writes =
        (quizSync {} wC1Fs "course/quiz.json" (some "course") "Quiz" none
          [] [] true "assignment").1.writes)) :=
  ⟨⟨by decide, by decide, by decide, by decide, by decide⟩,
   sync_idempotent {} {} wC1Fs "course" "course/page.qmd" "Page" "<p>hi</p>"
     [("course/img.png", FOLDER_IMAGES)] true "course/quiz.json" "Quiz" none [] [] true
     "assignment" (by decide) (by decide) (by decide) (by decide) (by decide)
     (by decide)⟩

